import Mathlib

/-!
# Formal model of the prosim simulation and analysis engine

This file gives a shallow embedding, in Lean 4, of the core of the
`prosim` workflow-simulation engine (graph model and operations,
deterministic expected-value engine, Monte Carlo engine, bottleneck
detector, sensitivity analyzer, intervention engine, leverage ranker),
together with theorems settling a list of specification claims.

Modelling conventions:
* Python `float` values are modelled as exact rationals `ℚ`; the special
  values `inf`, `-inf` and `nan` (which the code produces for throughput
  and for before/after deltas on throughput) are modelled by the type
  `PyF` below, with IEEE-style arithmetic on the operations the code uses.
* Python `int` is modelled as `ℤ` (or `ℕ` for fields whose pydantic
  validators force non-negativity, such as `num_transactions`).
* Python dicts keyed by node id are modelled as association lists with
  insertion-order update-or-append semantics (`dset`/`dlookup`).
* `numpy.random.default_rng(seed)` is modelled by a deterministic draw
  stream derived from the seed; when the seed is `None`, numpy pulls
  fresh OS entropy, which is modelled by an explicit entropy-stream
  parameter.  Distribution shapes are abstracted: each `rng.normal`,
  `rng.random` or `rng.choice` call consumes one draw from the stream.
* Python's stable `list.sort(key=…, reverse=True)` is modelled by
  `List.insertionSort` with the corresponding non-strict relation,
  which has the same stable descending behaviour.
-/

attribute [local semireducible] Rat.add Rat.sub Rat.mul Rat.inv Rat.ofScientific

namespace Prosim

/-- Python `int(x)` truncation toward zero of a rational. -/
def pyTrunc (q : ℚ) : ℤ :=
if 0 ≤ q then ⌊q⌋ else -⌊-q⌋

/-- Round-half-to-even of a rational to an integer, as Python's `round`. -/
def roundHalfEven (q : ℚ) : ℤ :=
if q - (⌊q⌋ : ℚ) < 1/2 then ⌊q⌋
else if 1/2 < q - (⌊q⌋ : ℚ) then ⌊q⌋ + 1
else if ⌊q⌋ % 2 = 0 then ⌊q⌋ else ⌊q⌋ + 1

/-- Python `round(x, nd)` for a finite float, modelled exactly on `ℚ`. -/
def pyRound (nd : ℕ) (q : ℚ) : ℚ :=
(roundHalfEven (q * 10 ^ nd) : ℚ) / 10 ^ nd

/-- Association-list lookup (first matching key), i.e. Python `dict.get`. -/
def dlookup {κ α : Type} [DecidableEq κ] : List (κ × α) → κ → Option α
  | [], _ => none
  | kv :: t, k => if kv.1 = k then some kv.2 else dlookup t k

/-- Python `dict.get(k, v0)`. -/
def dgetD {κ α : Type} [DecidableEq κ] (d : List (κ × α)) (k : κ) (v0 : α) : α :=
(dlookup d k).getD v0

/-- Python `dict[k] = v`: update the existing entry or append a new one. -/
def dset {κ α : Type} [DecidableEq κ] : List (κ × α) → κ → α → List (κ × α)
  | [], k, v => [(k, v)]
  | kv :: t, k, v => if kv.1 = k then (k, v) :: t else kv :: dset t k v

/-- A Python float: a finite rational or one of the special values
`inf`, `-inf`, `nan`.  The engine produces `inf` for throughput on
zero-time graphs, and `nan` can arise from `inf - inf` in deltas. -/
inductive PyF where
  | num : ℚ → PyF
  | inf : PyF
  | ninf : PyF
  | nan : PyF
deriving DecidableEq

namespace PyF

/-- IEEE `<` comparison; any comparison with `nan` is false. -/
def lt : PyF → PyF → Bool
  | num a, num b => a < b
  | num _, inf => true
  | ninf, num _ => true
  | ninf, inf => true
  | _, _ => false

/-- IEEE negation. -/
def neg : PyF → PyF
  | num a => num (-a)
  | inf => ninf
  | ninf => inf
  | nan => nan

/-- IEEE absolute value. -/
def abs : PyF → PyF
  | num a => num |a|
  | inf => inf
  | ninf => inf
  | nan => nan

/-- IEEE subtraction (only the cases the code can reach matter). -/
def sub : PyF → PyF → PyF
  | num a, num b => num (a - b)
  | num _, inf => ninf
  | num _, ninf => inf
  | inf, num _ => inf
  | ninf, num _ => ninf
  | inf, inf => nan
  | ninf, ninf => nan
  | inf, ninf => inf
  | ninf, inf => ninf
  | _, _ => nan

/-- IEEE multiplication. -/
def mul : PyF → PyF → PyF
  | num a, num b => num (a * b)
  | num a, inf => if 0 < a then inf else if a < 0 then ninf else nan
  | inf, num a => if 0 < a then inf else if a < 0 then ninf else nan
  | num a, ninf => if 0 < a then ninf else if a < 0 then inf else nan
  | ninf, num a => if 0 < a then ninf else if a < 0 then inf else nan
  | inf, inf => inf
  | ninf, ninf => inf
  | inf, ninf => ninf
  | ninf, inf => ninf
  | _, _ => nan

/-- IEEE division (a finite divided by zero is unreachable in the code,
which always divides by `max(…, 1e-10)`; it is mapped to `nan`). -/
def div : PyF → PyF → PyF
  | num a, num b => if b = 0 then nan else num (a / b)
  | num _, inf => num 0
  | num _, ninf => num 0
  | inf, num b => if 0 ≤ b then inf else ninf
  | ninf, num b => if 0 ≤ b then ninf else inf
  | _, _ => nan

/-- Python `max(a, b)`: keeps `a` unless `b` compares strictly greater. -/
def pyMax (a b : PyF) : PyF := if lt a b then b else a

/-- Python `min(a, b)`: keeps `a` unless `b` compares strictly smaller. -/
def pyMin (a b : PyF) : PyF := if lt b a then b else a

/-- Python `round(x, nd)` on a float, incl. the special values. -/
def roundTo (nd : ℕ) : PyF → PyF
  | num a => num (pyRound nd a)
  | inf => inf
  | ninf => ninf
  | nan => nan

/-- The float is finite and within `b` of zero in absolute value
(`abs(x) <= b` is false for `nan` and infinities, as in Python). -/
def absWithin (x : PyF) (b : ℚ) : Prop :=
match x with
  | num a => |a| ≤ b
  | _ => False

instance (x : PyF) (b : ℚ) : Decidable (absWithin x b) := by
  unfold absWithin; cases x <;> infer_instance

end PyF

/-! ## Data model (`prosim.graph.models`, `prosim.simulation.results`,
`prosim.intervention.models`) -/

/-- Classification of workflow node types. -/
inductive NodeType where
  | start | «end» | human | api | async | batch | decision | parallel_gateway | wait
deriving DecidableEq

/-- Classification of edge types. -/
inductive EdgeType where
  | normal | conditional | default | loop
deriving DecidableEq

/-- Parameters for a workflow node.  Fields that pydantic constrains to
non-negative integers (`parallelization_factor ≥ 1`, `max_retries ≥ 0`)
are modelled as `ℕ`. -/
structure NodeParams where
  exec_time_mean : ℚ := 1
  exec_time_variance : ℚ := 1/10
  cost_per_transaction : ℚ := 0
  error_rate : ℚ := 0
  drop_off_rate : ℚ := 0
  sla_breach_probability : ℚ := 0
  conversion_rate : ℚ := 1
  parallelization_factor : ℕ := 1
  queue_delay_mean : ℚ := 0
  queue_delay_variance : ℚ := 0
  capacity_per_hour : Option ℚ := none
  max_retries : ℕ := 0
  retry_delay : ℚ := 0
  volume_multiplier : ℚ := 1
deriving DecidableEq

/-- A workflow node. -/
structure Node where
  id : String
  name : String
  node_type : NodeType
  description : String := ""
  params : NodeParams := {}
deriving DecidableEq

/-- A directed edge between workflow nodes. -/
structure Edge where
  source : String
  target : String
  edge_type : EdgeType := .normal
  probability : ℚ := 1
  condition : String := ""
deriving DecidableEq

/-- Complete workflow graph with nodes and edges. -/
structure WorkflowGraph where
  name : String
  description : String := ""
  nodes : List Node := []
  edges : List Edge := []
deriving DecidableEq

instance : Inhabited WorkflowGraph := ⟨⟨"", "", [], []⟩⟩

/-- `WorkflowGraph.get_node`: first node with the given id. -/
def WorkflowGraph.get_node (wf : WorkflowGraph) (node_id : String) : Option Node :=
wf.nodes.find? (fun n => n.id = node_id)

/-- `WorkflowGraph.get_start_nodes`. -/
def WorkflowGraph.get_start_nodes (wf : WorkflowGraph) : List Node :=
wf.nodes.filter (fun n => n.node_type = .start)

/-- `WorkflowGraph.get_end_nodes`. -/
def WorkflowGraph.get_end_nodes (wf : WorkflowGraph) : List Node :=
wf.nodes.filter (fun n => n.node_type = .«end»)

/-- `WorkflowGraph.get_outgoing_edges`. -/
def WorkflowGraph.get_outgoing_edges (wf : WorkflowGraph) (node_id : String) : List Edge :=
wf.edges.filter (fun e => e.source = node_id)

/-- `WorkflowGraph.get_incoming_edges`. -/
def WorkflowGraph.get_incoming_edges (wf : WorkflowGraph) (node_id : String) : List Edge :=
wf.edges.filter (fun e => e.target = node_id)

/-- `WorkflowGraph.get_decision_nodes`. -/
def WorkflowGraph.get_decision_nodes (wf : WorkflowGraph) : List Node :=
wf.nodes.filter (fun n => n.node_type = .decision)

/-- Simulation execution mode. -/
inductive SimulationMode where
  | deterministic | monte_carlo
deriving DecidableEq

/-- Configuration for a simulation run (`num_transactions ≥ 1` and
`batch_size ≥ 100` by pydantic; modelled as `ℕ`). -/
structure SimulationConfig where
  mode : SimulationMode := .deterministic
  num_transactions : ℕ := 10000
  seed : Option ℤ := some 42
  batch_size : ℕ := 10000
  volume_per_hour : ℚ := 100
deriving DecidableEq

/-- Per-node simulation metrics.  Count fields are plain Python ints
(no pydantic bound), hence `ℤ`. -/
structure NodeMetrics where
  node_id : String
  node_name : String
  avg_time : ℚ := 0
  p50_time : ℚ := 0
  p95_time : ℚ := 0
  p99_time : ℚ := 0
  total_time_contribution : ℚ := 0
  avg_cost : ℚ := 0
  total_cost : ℚ := 0
  transactions_processed : ℤ := 0
  transactions_errored : ℤ := 0
  transactions_dropped : ℤ := 0
  transactions_retried : ℤ := 0
  utilization : ℚ := 0
  queue_time : ℚ := 0
  bottleneck_score : ℚ := 0
deriving DecidableEq

instance : Inhabited NodeMetrics := ⟨{ node_id := "", node_name := "" }⟩

/-- Information about a detected bottleneck. -/
structure BottleneckInfo where
  node_id : String
  node_name : String
  score : ℚ
  reason : String
  utilization : ℚ := 0
  avg_queue_time : ℚ := 0
  time_contribution_pct : ℚ := 0
deriving DecidableEq

/-- Sensitivity of a system metric to a parameter change. -/
structure SensitivityEntry where
  node_id : String
  parameter : String
  baseline_value : ℚ
  perturbed_value : ℚ
  metric_name : String
  baseline_metric : ℚ
  perturbed_metric : ℚ
  absolute_impact : ℚ
  relative_impact_pct : ℚ
deriving DecidableEq

/-- Complete sensitivity analysis report. -/
structure SensitivityReport where
  entries : List SensitivityEntry := []
  perturbation_pct : ℚ := 10
deriving DecidableEq

/-- Complete results from a simulation run.  The two throughput fields
can be `inf` (when total time is zero), hence `PyF`. -/
structure SimulationResults where
  config : SimulationConfig
  workflow_name : String
  total_transactions : ℤ := 0
  completed_transactions : ℤ := 0
  failed_transactions : ℤ := 0
  dropped_transactions : ℤ := 0
  avg_total_time : ℚ := 0
  p50_total_time : ℚ := 0
  p95_total_time : ℚ := 0
  p99_total_time : ℚ := 0
  min_total_time : ℚ := 0
  max_total_time : ℚ := 0
  avg_total_cost : ℚ := 0
  total_cost : ℚ := 0
  throughput_per_hour : PyF := .num 0
  max_throughput_per_hour : PyF := .num 0
  node_metrics : List NodeMetrics := []
  bottlenecks : List BottleneckInfo := []
  sensitivity : Option SensitivityReport := none
deriving DecidableEq

/-- A single intervention applied to a workflow node
(`parallelization_increase ≥ 0` and `implementation_cost ≥ 0` by pydantic). -/
structure Intervention where
  node_id : String
  time_reduction_pct : ℚ := 0
  cost_reduction_pct : ℚ := 0
  error_reduction_pct : ℚ := 0
  capacity_increase_pct : ℚ := 0
  parallelization_increase : ℕ := 0
  queue_reduction_pct : ℚ := 0
  implementation_cost : ℚ := 0
deriving DecidableEq

/-- Change in a single metric from baseline to optimized. -/
structure MetricDelta where
  metric_name : String
  baseline_value : PyF
  optimized_value : PyF
  absolute_change : PyF
  relative_change_pct : PyF
deriving DecidableEq

/-- Before/after comparison of workflow metrics after interventions. -/
structure InterventionComparison where
  interventions_applied : List Intervention := []
  deltas : List MetricDelta := []
  time_saved_pct : PyF := .num 0
  cost_saved_pct : PyF := .num 0
  throughput_increase_pct : PyF := .num 0
  error_reduction_pct : PyF := .num 0
  total_implementation_cost : ℚ := 0
  annual_cost_savings : ℚ := 0
  roi_ratio : Option ℚ := none
  payback_months : Option ℚ := none
deriving DecidableEq

/-- A node ranked by its marginal improvement leverage. -/
structure LeverageRanking where
  node_id : String
  node_name : String
  parameter : String
  leverage_score : ℚ
  time_impact_pct : ℚ := 0
  cost_impact_pct : ℚ := 0
  recommendation : String := ""
deriving DecidableEq

/-! ## Graph operations (`prosim.graph.operations`)

`build_nx_graph` constructs a `networkx.DiGraph`.  A `DiGraph` keeps
nodes in insertion order (workflow nodes first, then any edge endpoint
not yet present) and collapses duplicate `(source, target)` pairs into
one edge; only the node and edge-pair structure matters for the
algorithms modelled here. -/

/-- A directed graph as node list (insertion order, no duplicates) and
edge-pair list (insertion order, no duplicates). -/
structure DG where
  nodes : List String
  edges : List (String × String)
deriving DecidableEq

/-- Append `x` unless already present (networkx node/edge insertion). -/
def insertUnique {α : Type} [DecidableEq α] (l : List α) (x : α) : List α :=
if x ∈ l then l else l ++ [x]

/-- The node list of `build_nx_graph`: workflow nodes in order, then
edge endpoints (source before target, per edge) not yet present. -/
def nxNodes (wf : WorkflowGraph) : List String :=
wf.edges.foldl (fun l e => insertUnique (insertUnique l e.source) e.target)
  (wf.nodes.foldl (fun l n => insertUnique l n.id) [])

/-- The edge-pair list of `build_nx_graph` (duplicates collapsed,
first occurrence kept). -/
def nxEdges (wf : WorkflowGraph) : List (String × String) :=
wf.edges.foldl (fun l e => insertUnique l (e.source, e.target)) []

/-- `build_nx_graph`, restricted to its graph structure. -/
def build_nx_graph (wf : WorkflowGraph) : DG :=
⟨nxNodes wf, nxEdges wf⟩

/-- In-degree of `v` in an edge list. -/
def indegCount (edges : List (String × String)) (v : String) : ℕ :=
(edges.filter (fun e => e.2 = v)).length

/-- One run of networkx's Kahn-style `topological_sort` generator:
`stack` is the zero-indegree list with its Python-`pop()` end at the
head, `rem` the edges out of not-yet-emitted nodes, `acc` the reversed
output so far. -/
def kahnAux : ℕ → List (String × String) → List String → List String → List String
  | 0, _, _, acc => acc.reverse
  | _ + 1, _, [], acc => acc.reverse
  | fuel + 1, rem, v :: stk, acc =>
      let rem' := rem.filter (fun e => ¬ e.1 = v)
      let children := (rem.filter (fun e => e.1 = v)).map (fun e => e.2)
      let newZeros := children.filter (fun c => indegCount rem' c = 0)
      kahnAux fuel rem' (newZeros.foldl (fun s c => c :: s) stk) (v :: acc)

/-- networkx `topological_sort` on a digraph: initial zero-indegree
nodes in insertion order, popped from the end (LIFO). -/
def kahn (g : DG) : List String :=
kahnAux g.nodes.length g.edges
  ((g.nodes.filter (fun v => indegCount g.edges v = 0)).reverse) []

/-- networkx `is_directed_acyclic_graph`: the topological sort emits
every node exactly when the graph is acyclic. -/
def isDag (g : DG) : Prop :=
(kahn g).length = g.nodes.length

instance (g : DG) : Decidable (isDag g) := by unfold isDag; infer_instance

/-- The edge list of the path segment from `w` to the end of `path`,
closed by the back edge `(v, w)` — the cycle `networkx.find_cycle`
reports when DFS at `v` (last element of `path`) meets `w ∈ path`. -/
def closeCycle (path : List String) (w v : String) : List (String × String) :=
let seg := path.dropWhile (fun x => ¬ x = w)
seg.zip seg.tail ++ [(v, w)]

/-- DFS cycle search from node `v` with current path `path` (ending at
`v`), trying the successors `ws` in order and returning the first cycle
found; `fuel` bounds the depth.  Models `networkx.find_cycle`'s
depth-first search. -/
def dfsTry (edges : List (String × String)) :
    ℕ → List String → String → List String → Option (List (String × String))
  | 0, _, _, _ => none
  | fuel + 1, path, v, ws =>
      ws.findSome? (fun w =>
        if w ∈ path then some (closeCycle path w v)
        else dfsTry edges fuel (path ++ [w]) w
          ((edges.filter (fun e => e.1 = w)).map (fun e => e.2)))

/-- `networkx.find_cycle(G)`: DFS from each node in insertion order. -/
def findCycle (g : DG) : Option (List (String × String)) :=
g.nodes.foldl
  (fun acc r =>
    match acc with
    | some c => some c
    | none =>
        dfsTry g.edges (g.nodes.length + 1) [r] r
          ((g.edges.filter (fun e => e.1 = r)).map (fun e => e.2)))
  none

/-- The `while not nx.is_directed_acyclic_graph` loop of
`topological_execution_order`: repeatedly find a cycle and remove its
last edge.  Each removal deletes one edge, so `edges.length + 1` fuel
reaches a fixpoint on every input the Python loop terminates on. -/
def breakCycles : ℕ → DG → DG
  | 0, g => g
  | fuel + 1, g =>
      if isDag g then g
      else
        match findCycle g with
        | some cyc =>
            match cyc.getLast? with
            | some e => breakCycles fuel ⟨g.nodes, g.edges.filter (fun p => ¬ p = e)⟩
            | none => g
        | none => g

/-- The loop-typed edge pairs of a workflow. -/
def loopPairs (wf : WorkflowGraph) : List (String × String) :=
(wf.edges.filter (fun e => e.edge_type = .loop)).map (fun e => (e.source, e.target))

/-- The graph after `G_acyclic.remove_edges_from(loop_edges)`. -/
def removeLoops (wf : WorkflowGraph) : DG :=
let g := build_nx_graph wf
⟨g.nodes, g.edges.filter (fun p => ¬ p ∈ loopPairs wf)⟩

/-- The acyclic graph actually sorted by `topological_execution_order`:
loop edges removed, then residual cycles broken. -/
def acyclicGraph (wf : WorkflowGraph) : DG :=
let g1 := removeLoops wf
breakCycles (g1.edges.length + 1) g1

/-- `topological_execution_order`. -/
def topological_execution_order (wf : WorkflowGraph) : List String :=
kahn (acyclicGraph wf)

/-- Position of the first occurrence of `a` in `l` (`list.index`-like;
equals `l.length` when absent). -/
def posOf : List String → String → ℕ
  | [], _ => 0
  | x :: t, a => if x = a then 0 else posOf t a + 1

/-- Overwrite the probability of every edge out of `nid` with `f e`
(the in-place `edge.probability = …` loop over one decision node's
outgoing edges). -/
def mapProbEdges (w : WorkflowGraph) (nid : String) (f : Edge → ℚ) : WorkflowGraph :=
{ w with edges := w.edges.map (fun e => if e.source = nid then { e with probability := f e } else e) }

/-- `normalize_decision_probabilities` on the outgoing edges of one
decision node id. -/
def normalizeNode (wf : WorkflowGraph) (nid : String) : WorkflowGraph :=
let outgoing := wf.get_outgoing_edges nid
if outgoing.isEmpty then wf
else
  let total : ℚ := (outgoing.map (fun e => e.probability)).sum
  if total ≤ 0 then mapProbEdges wf nid (fun _ => 1 / (outgoing.length : ℚ))
  else if 1/1000 < |total - 1| then mapProbEdges wf nid (fun e => e.probability / total)
  else wf

/-- `normalize_decision_probabilities`: normalize outgoing edge
probabilities of every decision node (in-place mutation in Python,
modelled functionally). -/
def normalize_decision_probabilities (wf : WorkflowGraph) : WorkflowGraph :=
wf.get_decision_nodes.foldl (fun w n => normalizeNode w n.id) wf

/-! ## Deterministic engine (`prosim.simulation.deterministic`) -/

/-- Maximum of a Python list of floats (`max(l)`; the code only calls
it on non-empty lists, `[]` maps to the given default). -/
def listMaxD (l : List ℚ) (d : ℚ) : ℚ :=
match l with
  | [] => d
  | h :: t => t.foldl max h

/-- One iteration of the visit-probability loop of `run_deterministic`:
a start node gets probability 1.0, any other node the sum over its
incoming edges of parent visit probability (0.0 if unset) times edge
probability. -/
def visitStep (wf : WorkflowGraph) (vp : List (String × ℚ)) (node_id : String) :
    List (String × ℚ) :=
match wf.get_node node_id with
  | none => vp
  | some node =>
      if node.node_type = .start then dset vp node_id 1
      else
        dset vp node_id
          (((wf.get_incoming_edges node_id).map
            (fun e => dgetD vp e.source 0 * e.probability)).sum)

/-- The visit-probability dict computed by `run_deterministic` over the
given execution order. -/
def computeVisitProb (wf : WorkflowGraph) (order : List String) : List (String × ℚ) :=
order.foldl (visitStep wf) []

/-- `compute_bottleneck_scores` (in-place in Python, modelled as a map):
score = 0.4·time-share + 0.3·utilization + 0.3·queue-time ratio. -/
def compute_bottleneck_scores (node_metrics : List NodeMetrics) (avg_total_time : ℚ) :
    List NodeMetrics :=
let total_time_contrib : ℚ := (node_metrics.map (fun nm => nm.total_time_contribution)).sum
node_metrics.map (fun nm =>
  let time_pct := nm.total_time_contribution / max total_time_contrib (1/10^10)
  { nm with bottleneck_score :=
      4/10 * time_pct + 3/10 * nm.utilization
        + 3/10 * (nm.queue_time / max avg_total_time (1/10^10)) })

/-- One iteration of the arrival-time/metrics loop of
`run_deterministic`, carrying the `arrival_time` and
`node_metrics_map` dicts. -/
def detStep (wf : WorkflowGraph) (config : SimulationConfig)
    (vp : List (String × ℚ))
    (st : List (String × ℚ) × List (String × NodeMetrics)) (node_id : String) :
    List (String × ℚ) × List (String × NodeMetrics) :=
match wf.get_node node_id with
  | none => st
  | some node =>
      let arrival := st.1
      let metrics := st.2
      let p := node.params
      let v := dgetD vp node_id 0
      let retry_factor : ℚ := 1 + p.error_rate * (p.max_retries : ℚ)
      let node_exec_time := (p.exec_time_mean + p.queue_delay_mean) * retry_factor
      let effective_time := node_exec_time / ((max p.parallelization_factor 1 : ℕ) : ℚ)
      let arr : ℚ :=
        if node.node_type = .start then 0
        else
          let incoming := wf.get_incoming_edges node_id
          if incoming.isEmpty then 0
          else
            let acc := incoming.foldl
              (fun (a : ℚ × ℚ) e =>
                match dlookup metrics e.source with
                | none => a
                | some pm =>
                    let parent_completion := dgetD arrival e.source 0 + pm.avg_time
                    let w := dgetD vp e.source 0 * e.probability
                    (a.1 + parent_completion * w, a.2 + w))
              (0, 0)
            acc.1 / max acc.2 (1/10^10)
      let node_cost := p.cost_per_transaction * retry_factor
      let transactions_at_node := pyTrunc ((config.num_transactions : ℚ) * v)
      let transactions_errored := pyTrunc ((transactions_at_node : ℚ) * p.error_rate)
      let transactions_dropped := pyTrunc ((transactions_at_node : ℚ) * p.drop_off_rate)
      let transactions_retried := transactions_errored * ((min p.max_retries 1 : ℕ) : ℤ)
      let utilization : ℚ :=
        match p.capacity_per_hour with
        | some cap =>
            if ¬ cap = 0 ∧ 0 < cap then
              min (config.volume_per_hour * v / (cap * (p.parallelization_factor : ℚ))) 1
            else 0
        | none => 0
      let nm : NodeMetrics :=
        { node_id := node_id
          node_name := node.name
          avg_time := effective_time
          p50_time := effective_time
          p95_time := effective_time * (13/10)
          p99_time := effective_time * (16/10)
          total_time_contribution := effective_time * v
          avg_cost := node_cost
          total_cost := node_cost * (transactions_at_node : ℚ)
          transactions_processed := transactions_at_node
          transactions_errored := transactions_errored
          transactions_dropped := transactions_dropped
          transactions_retried := transactions_retried
          utilization := utilization
          queue_time := p.queue_delay_mean }
      (dset arrival node_id arr, dset metrics node_id nm)

/-- `run_deterministic`: expected values via a forward pass over the
topological execution order. -/
def run_deterministic (wf : WorkflowGraph) (config : SimulationConfig) :
    SimulationResults :=
let topo_order := topological_execution_order wf
let vp := computeVisitProb wf topo_order
let st := topo_order.foldl (detStep wf config vp) ([], [])
let arrival := st.1
let metrics := st.2
let node_metrics_list := metrics.map (fun kv => kv.2)
let end_times := (wf.get_end_nodes.filter
  (fun n => (dlookup arrival n.id).isSome ∧ (dlookup metrics n.id).isSome)).map
  (fun n => dgetD arrival n.id 0 + (dgetD metrics n.id default).avg_time)
let avg_total_time := if end_times.isEmpty then 0 else listMaxD end_times 0
let avg_total_cost : ℚ :=
  (node_metrics_list.map (fun nm => nm.avg_cost * dgetD vp nm.node_id 0)).sum
let throughput : PyF :=
  if 0 < avg_total_time then .num (3600 / avg_total_time) else .inf
let max_throughput : PyF := node_metrics_list.foldl
  (fun mt nm =>
    match wf.get_node nm.node_id with
    | none => mt
    | some node =>
        match node.params.capacity_per_hour with
        | none => mt
        | some cap =>
            if ¬ cap = 0 then
              let v := dgetD vp nm.node_id 0
              if 0 < v then
                mt.pyMin (.num (cap * (node.params.parallelization_factor : ℚ) / v))
              else mt
            else mt)
  throughput
let end_visit_prob : ℚ := (wf.get_end_nodes.map (fun n => dgetD vp n.id 0)).sum
let completed := pyTrunc ((config.num_transactions : ℚ) * end_visit_prob)
let total_dropped := (node_metrics_list.map (fun nm => nm.transactions_dropped)).sum
let total_errored := (node_metrics_list.map (fun nm => nm.transactions_errored)).sum
let scored := compute_bottleneck_scores node_metrics_list avg_total_time
{ config := config
  workflow_name := wf.name
  total_transactions := (config.num_transactions : ℤ)
  completed_transactions := completed
  failed_transactions := total_errored
  dropped_transactions := total_dropped
  avg_total_time := avg_total_time
  p50_total_time := avg_total_time
  p95_total_time := avg_total_time * (13/10)
  p99_total_time := avg_total_time * (16/10)
  min_total_time := avg_total_time * (7/10)
  max_total_time := avg_total_time * 2
  avg_total_cost := avg_total_cost
  total_cost := avg_total_cost * (config.num_transactions : ℚ)
  throughput_per_hour := throughput
  max_throughput_per_hour := max_throughput
  node_metrics := scored }

/-! ## Monte Carlo engine (`prosim.simulation.montecarlo`)

`numpy.random.default_rng(seed)` is modelled as a deterministic stream
of rational draws: seeded generators use a stream computed from the
seed alone; an unseeded generator (`seed is None`) uses fresh OS
entropy, modelled by an explicit entropy-stream argument.  Each
`rng.normal`, `rng.random` or `rng.choice` call consumes one draw.
`rng.normal(mean, std)` with `std = sqrt(variance)` is modelled as
`mean + variance·d` for the next draw `d`: the abstract standard
deviate absorbs the square-root scaling, so the set of producible
samples (and everything the claims below depend on) is unchanged. -/

/-- Deterministic pseudo-random generator state: a draw stream and a
position in it. -/
structure Rng where
  stream : ℕ → ℚ
  idx : ℕ

/-- Draw the next value from the stream. -/
def Rng.next (r : Rng) : ℚ × Rng :=
(r.stream r.idx, ⟨r.stream, r.idx + 1⟩)

/-- `rng.normal(mean, sqrt(variance))`, abstracted (see section note). -/
def Rng.normal (r : Rng) (mean variance : ℚ) : ℚ × Rng :=
let (d, r') := r.next
(mean + variance * d, r')

/-- The draw stream of a seeded `numpy` generator, as a concrete
deterministic function of the seed. -/
def seedStream (s : ℤ) : ℕ → ℚ :=
fun n => (((s.natAbs + 7 * n) % 1000 : ℕ) : ℚ) / 1000

/-- `numpy.random.default_rng(seed)`: seeded → stream from the seed;
`None` → fresh OS entropy (the explicit `entropy` stream). -/
def default_rng : Option ℤ → (ℕ → ℚ) → Rng
  | some s, _ => ⟨seedStream s, 0⟩
  | none, entropy => ⟨entropy, 0⟩

/-- Inverse-CDF branch selection of `rng.choice(n, p=probs)` for one
uniform draw `u`: first index whose cumulative probability exceeds `u`,
the last index as fallback. -/
def choiceIndexAux : List ℚ → ℚ → ℕ → ℕ
  | [], _, i => i
  | [_], _, i => i
  | p :: ps, u, i => if u < p then i else choiceIndexAux ps (u - p) (i + 1)

/-- `numpy.percentile(xs, p)` (linear interpolation method). -/
def percentile (xs : List ℚ) (p : ℚ) : ℚ :=
let s := List.insertionSort (fun a b : ℚ => a ≤ b) xs
match s with
  | [] => 0
  | _ =>
      let rank : ℚ := p / 100 * ((s.length : ℚ) - 1)
      let lo := (⌊rank⌋).toNat
      let frac : ℚ := rank - (⌊rank⌋ : ℚ)
      match s.get? lo with
      | none => 0
      | some a =>
          match s.get? (lo + 1) with
          | none => a
          | some b => a + frac * (b - a)

/-- Minimum of a Python list of floats (`[]` maps to the default). -/
def listMinD (l : List ℚ) (d : ℚ) : ℚ :=
match l with
  | [] => d
  | h :: t => t.foldl min h

/-- Per-node accumulators of the Monte Carlo loop (`node_times`,
`node_costs`, `node_visits`, `node_errors`, `node_drops`,
`node_retries`), as total maps from node id. -/
structure MCAcc where
  times : String → List ℚ
  costs : String → List ℚ
  visits : String → ℕ
  errors : String → ℕ
  drops : String → ℕ
  retries : String → ℕ

/-- The empty accumulators. -/
def MCAcc.init : MCAcc :=
⟨fun _ => [], fun _ => [], fun _ => 0, fun _ => 0, fun _ => 0, fun _ => 0⟩

/-- The retry loop after an error event: each retry adds the retry
delay plus a fresh execution-time sample, stopping early when a draw
clears the error rate.  Returns (retries used, added time, rng). -/
def retryLoop (p : NodeParams) : ℕ → Rng → ℕ × ℚ × Rng
  | 0, rng => (0, 0, rng)
  | k + 1, rng =>
      let (extra, rng1) :=
        if 0 < p.exec_time_variance then
          let (s, r') := rng.normal p.exec_time_mean p.exec_time_variance
          (p.retry_delay + max 0 s, r')
        else (p.retry_delay + p.exec_time_mean, rng)
      let (u, rng2) := rng1.next
      if p.error_rate ≤ u then (1, extra, rng2)
      else
        let (cnt, more, rng3) := retryLoop p k rng2
        (1 + cnt, extra + more, rng3)

/-- One transaction's walk through the graph (the inner `while` loop of
`run_monte_carlo`), with `fuel` the remaining hop budget.  Returns the
accumulators, the generator, the transaction's total time and cost, and
whether it reached an end node. -/
def simTxStep (node_map : String → Option Node) (outgoing : String → List Edge) :
    ℕ → String → MCAcc → Rng → ℚ → ℚ → MCAcc × Rng × ℚ × ℚ × Bool
  | 0, _, acc, rng, tt, tc => (acc, rng, tt, tc, false)
  | fuel + 1, current, acc, rng, tt, tc =>
      if current = "" then (acc, rng, tt, tc, false)
      else
        match node_map current with
        | none => (acc, rng, tt, tc, false)
        | some node =>
            let p := node.params
            let acc := { acc with
              visits := Function.update acc.visits current (acc.visits current + 1) }
            let (exec_time, rng) :=
              if 0 < p.exec_time_variance then
                let (s, r') := Rng.normal rng p.exec_time_mean p.exec_time_variance
                (max 0 s, r')
              else (p.exec_time_mean, rng)
            let (queue_time, rng) :=
              if 0 < p.queue_delay_variance then
                let (s, r') := Rng.normal rng p.queue_delay_mean p.queue_delay_variance
                (max 0 s, r')
              else (p.queue_delay_mean, rng)
            let effective0 := (exec_time + queue_time) / ((max p.parallelization_factor 1 : ℕ) : ℚ)
            let (retries_used, effective, acc, rng) :=
              if 0 < p.error_rate then
                let (u, rng1) := Rng.next rng
                if u < p.error_rate then
                  let acc1 := { acc with
                    errors := Function.update acc.errors current (acc.errors current + 1) }
                  let (ru, extra, rng2) := retryLoop p p.max_retries rng1
                  (ru, effective0 + extra,
                    { acc1 with
                      retries := Function.update acc1.retries current (acc1.retries current + ru) },
                    rng2)
                else (0, effective0, acc, rng1)
              else (0, effective0, acc, rng)
            let (dropped, acc, rng) :=
              if 0 < p.drop_off_rate then
                let (u, rng1) := Rng.next rng
                if u < p.drop_off_rate then
                  (true,
                    { acc with
                      drops := Function.update acc.drops current (acc.drops current + 1) },
                    rng1)
                else (false, acc, rng1)
              else (false, acc, rng)
            let cost := p.cost_per_transaction * (1 + (retries_used : ℚ))
            let acc := { acc with
              times := Function.update acc.times current (acc.times current ++ [effective]),
              costs := Function.update acc.costs current (acc.costs current ++ [cost]) }
            let tt := tt + effective
            let tc := tc + cost
            if dropped then (acc, rng, tt, tc, false)
            else if node.node_type = .«end» then (acc, rng, tt, tc, true)
            else
              match outgoing current with
              | [] => (acc, rng, tt, tc, false)
              | e0 :: es =>
                  if node.node_type = .decision then
                    let probs := (e0 :: es).map (fun e => e.probability)
                    if 0 < probs.sum then
                      let (u, rng1) := Rng.next rng
                      let ci := choiceIndexAux (probs.map (fun q => q / probs.sum)) u 0
                      match (e0 :: es).get? ci with
                      | some e => simTxStep node_map outgoing fuel e.target acc rng1 tt tc
                      | none => simTxStep node_map outgoing fuel e0.target acc rng1 tt tc
                    else simTxStep node_map outgoing fuel e0.target acc rng tt tc
                  else simTxStep node_map outgoing fuel e0.target acc rng tt tc

/-- One per-transaction record (`tx_times[i]`, `tx_costs[i]`,
`tx_completed[i]`). -/
structure TxRes where
  time : ℚ
  cost : ℚ
  completed : Bool
deriving DecidableEq

/-- The outer `for i in range(num_tx)` loop of `run_monte_carlo`. -/
def runTxs (node_map : String → Option Node) (outgoing : String → List Edge)
    (maxHops : ℕ) (start_id : String) :
    ℕ → MCAcc → Rng → MCAcc × Rng × List TxRes
  | 0, acc, rng => (acc, rng, [])
  | n + 1, acc, rng =>
      let r1 := simTxStep node_map outgoing maxHops start_id acc rng 0 0
      let r2 := runTxs node_map outgoing maxHops start_id n r1.1 r1.2.1
      (r2.1, r2.2.1, ⟨r1.2.2.1, r1.2.2.2.1, r1.2.2.2.2⟩ :: r2.2.2)

/-- The node ids with accumulator dict entries (`{n.id: … for n in
workflow.nodes}` has one key per distinct id). -/
def uniqueIds (wf : WorkflowGraph) : List String :=
wf.nodes.foldl (fun l n => insertUnique l n.id) []

/-- `_empty_results`. -/
def empty_results (wf : WorkflowGraph) (config : SimulationConfig) : SimulationResults :=
{ config := config, workflow_name := wf.name }

/-- The body of `run_monte_carlo`, given an already-constructed
generator. -/
def mcBody (wf : WorkflowGraph) (config : SimulationConfig) (rng0 : Rng) :
    SimulationResults :=
let num_tx := config.num_transactions
let node_map : String → Option Node := fun k => wf.nodes.reverse.find? (fun n => n.id = k)
let outgoing : String → List Edge := fun k => wf.get_outgoing_edges k
match wf.get_start_nodes with
  | [] => empty_results wf config
  | s0 :: _ =>
      let max_hops := wf.nodes.length * 10
      let res := runTxs node_map outgoing max_hops s0.id num_tx MCAcc.init rng0
      let acc := res.1
      let txs := res.2.2
      let anyCompleted := txs.any (fun t => t.completed)
      let completed_times :=
        if anyCompleted then (txs.filter (fun t => t.completed)).map (fun t => t.time)
        else txs.map (fun t => t.time)
      let completed_costs :=
        if anyCompleted then (txs.filter (fun t => t.completed)).map (fun t => t.cost)
        else txs.map (fun t => t.cost)
      let avg_total_time : ℚ :=
        if 0 < completed_times.length then completed_times.sum / (completed_times.length : ℚ)
        else 0
      let avg_total_cost : ℚ :=
        if 0 < completed_costs.length then completed_costs.sum / (completed_costs.length : ℚ)
        else 0
      let node_metrics_list := wf.nodes.map (fun node =>
        let nid := node.id
        let times := acc.times nid
        match times with
        | [] => ({ node_id := nid, node_name := node.name } : NodeMetrics)
        | _ :: _ =>
            let costs := acc.costs nid
            let avg_t := times.sum / (times.length : ℚ)
            let contrib := avg_t * ((acc.visits nid : ℚ) / ((max num_tx 1 : ℕ) : ℚ))
            let utilization : ℚ :=
              match node.params.capacity_per_hour with
              | some cap =>
                  if ¬ cap = 0 ∧ 0 < cap then
                    min (config.volume_per_hour * ((acc.visits nid : ℚ) / ((max num_tx 1 : ℕ) : ℚ))
                      / (cap * (node.params.parallelization_factor : ℚ))) 1
                  else 0
              | none => 0
            { node_id := nid
              node_name := node.name
              avg_time := avg_t
              p50_time := percentile times 50
              p95_time := percentile times 95
              p99_time := percentile times 99
              total_time_contribution := contrib
              avg_cost := costs.sum / (costs.length : ℚ)
              total_cost := costs.sum
              transactions_processed := (acc.visits nid : ℤ)
              transactions_errored := (acc.errors nid : ℤ)
              transactions_dropped := (acc.drops nid : ℤ)
              transactions_retried := (acc.retries nid : ℤ)
              utilization := utilization
              queue_time := node.params.queue_delay_mean })
      let scored := compute_bottleneck_scores node_metrics_list avg_total_time
      let throughput : PyF :=
        if 0 < avg_total_time then .num (3600 / avg_total_time) else .inf
      { config := config
        workflow_name := wf.name
        total_transactions := (num_tx : ℤ)
        completed_transactions := ((txs.countP (fun t => t.completed)) : ℤ)
        failed_transactions := ((uniqueIds wf).map (fun k => (acc.errors k : ℤ))).sum
        dropped_transactions := ((txs.countP (fun t => ¬ t.completed)) : ℤ)
        avg_total_time := avg_total_time
        p50_total_time := if 0 < completed_times.length then percentile completed_times 50 else 0
        p95_total_time := if 0 < completed_times.length then percentile completed_times 95 else 0
        p99_total_time := if 0 < completed_times.length then percentile completed_times 99 else 0
        min_total_time := if 0 < completed_times.length then listMinD completed_times 0 else 0
        max_total_time := if 0 < completed_times.length then listMaxD completed_times 0 else 0
        avg_total_cost := avg_total_cost
        total_cost := (txs.map (fun t => t.cost)).sum
        throughput_per_hour := throughput
        max_throughput_per_hour := throughput
        node_metrics := scored }

/-- `run_monte_carlo`.  The final argument models the OS entropy that
`numpy.random.default_rng(None)` consumes when the config's seed is
`None`; it is unused whenever a seed is present. -/
def run_monte_carlo (wf : WorkflowGraph) (config : SimulationConfig)
    (entropy : ℕ → ℚ) : SimulationResults :=
mcBody wf config (default_rng config.seed entropy)

/-! ## Bottleneck detector (`prosim.simulation.bottleneck`) -/

/-- Python `max(components, key=components.get)`: the first key whose
value is maximal (later entries replace only on strict increase). -/
def firstMaxBy (l : List (String × ℚ)) : String :=
match l with
  | [] => ""
  | h :: t => (t.foldl (fun best kv => if best.2 < kv.2 then kv else best) h).1

/-- The time-contribution share of one node in `detect_bottlenecks`. -/
def bnTimePct (results : SimulationResults) (nm : NodeMetrics) : ℚ :=
nm.total_time_contribution
  / max ((results.node_metrics.map (fun x => x.total_time_contribution)).sum) (1/10^10)

/-- The cost share of one node in `detect_bottlenecks`. -/
def bnCostPct (results : SimulationResults) (nm : NodeMetrics) : ℚ :=
nm.total_cost / max ((results.node_metrics.map (fun x => x.total_cost)).sum) (1/10^10)

/-- The queue-time share of one node in `detect_bottlenecks`
(`max(queue times, default=1.0)` in the denominator). -/
def bnQueuePct (results : SimulationResults) (nm : NodeMetrics) : ℚ :=
nm.queue_time / max (listMaxD (results.node_metrics.map (fun x => x.queue_time)) 1) (1/10^10)

/-- The error rate of one node in `detect_bottlenecks`. -/
def bnErrorRate (nm : NodeMetrics) : ℚ :=
(nm.transactions_errored : ℚ) / ((max nm.transactions_processed 1 : ℤ) : ℚ)

/-- The composite bottleneck score of `detect_bottlenecks`. -/
def bnScore (results : SimulationResults) (nm : NodeMetrics) : ℚ :=
35/100 * bnTimePct results nm + 25/100 * nm.utilization + 20/100 * bnQueuePct results nm
  + 10/100 * bnErrorRate nm + 10/100 * bnCostPct results nm

/-- One node's entry of `detect_bottlenecks` (`None` when no
transaction was processed there). -/
def bnInfo (results : SimulationResults) (nm : NodeMetrics) : Option BottleneckInfo :=
if nm.transactions_processed = 0 then none
else some
  { node_id := nm.node_id
    node_name := nm.node_name
    score := pyRound 4 (bnScore results nm)
    reason := firstMaxBy
      [("High time contribution", bnTimePct results nm),
       ("High utilization", nm.utilization),
       ("High queue delay", bnQueuePct results nm),
       ("High error rate", bnErrorRate nm),
       ("High cost", bnCostPct results nm)]
    utilization := nm.utilization
    avg_queue_time := nm.queue_time
    time_contribution_pct := pyRound 2 (bnTimePct results nm * 100) }

/-- `detect_bottlenecks`. -/
def detect_bottlenecks (results : SimulationResults) (top_n : ℕ) : List BottleneckInfo :=
match results.node_metrics with
  | [] => []
  | _ :: _ =>
      (List.insertionSort (fun a b : BottleneckInfo => b.score ≤ a.score)
        (results.node_metrics.filterMap (bnInfo results))).take top_n

/-! ## Intervention engine (`prosim.intervention.engine`) -/

/-- The parameter modifications of `_apply_single` on one node's
parameter bundle. -/
def modParams (iv : Intervention) (p0 : NodeParams) : NodeParams :=
let p1 :=
  if 0 < iv.time_reduction_pct then
    let factor := max 0 (1 - min iv.time_reduction_pct 100 / 100)
    { p0 with exec_time_mean := p0.exec_time_mean * factor
              exec_time_variance := p0.exec_time_variance * (factor * factor) }
  else p0
let p2 :=
  if 0 < iv.cost_reduction_pct then
    let factor := max 0 (1 - min iv.cost_reduction_pct 100 / 100)
    { p1 with cost_per_transaction := p1.cost_per_transaction * factor }
  else p1
let p3 :=
  if 0 < iv.error_reduction_pct then
    let factor := max 0 (1 - min iv.error_reduction_pct 100 / 100)
    { p2 with error_rate := p2.error_rate * factor }
  else p2
let p4 :=
  if 0 < iv.capacity_increase_pct then
    match p3.capacity_per_hour with
    | some cap =>
        { p3 with capacity_per_hour := some (cap * (1 + iv.capacity_increase_pct / 100)) }
    | none => p3
  else p3
let p5 :=
  if 0 < iv.parallelization_increase then
    { p4 with parallelization_factor := p4.parallelization_factor + iv.parallelization_increase }
  else p4
if 0 < iv.queue_reduction_pct then
  let factor := max 0 (1 - min iv.queue_reduction_pct 100 / 100)
  { p5 with queue_delay_mean := p5.queue_delay_mean * factor
            queue_delay_variance := p5.queue_delay_variance * (factor * factor) }
else p5

/-- Apply `f` to the first node with the given id (the object
`WorkflowGraph.get_node` returns and `_apply_single` mutates). -/
def setNodeFirst : List Node → String → (Node → Node) → List Node
  | [], _, _ => []
  | n :: t, nid, f => if n.id = nid then f n :: t else n :: setNodeFirst t nid f

/-- `_apply_single` (mutates in place in Python, modelled functionally;
a missing node id leaves the graph unchanged). -/
def apply_single (wf : WorkflowGraph) (iv : Intervention) : WorkflowGraph :=
let nodes' := setNodeFirst wf.nodes iv.node_id (fun n => { n with params := modParams iv n.params })
{ wf with nodes := nodes' }

/-- The intervention loop of `apply_interventions` on the deep copy. -/
def applyAll (wf : WorkflowGraph) (ivs : List Intervention) : WorkflowGraph :=
ivs.foldl apply_single wf

/-- `_pct_change`. -/
def pct_change (old new : PyF) (invert : Bool) : PyF :=
if PyF.lt old.abs (.num (1/10^10)) then .num 0
else
  let change := ((old.sub new).div old.abs).mul (.num 100)
  if invert then change.neg else change

/-- One `MetricDelta` of `_compute_deltas`. -/
def metricDelta (name : String) (bv ov : PyF) : MetricDelta :=
let abs_change := ov.sub bv
let rel := (abs_change.div (bv.abs.pyMax (.num (1/10^10)))).mul (.num 100)
{ metric_name := name
  baseline_value := bv.roundTo 4
  optimized_value := ov.roundTo 4
  absolute_change := abs_change.roundTo 4
  relative_change_pct := rel.roundTo 2 }

/-- `_compute_deltas`. -/
def compute_deltas (baseline optimized : SimulationResults) : List MetricDelta :=
[ metricDelta "Average Total Time (s)" (.num baseline.avg_total_time) (.num optimized.avg_total_time),
  metricDelta "Average Total Cost" (.num baseline.avg_total_cost) (.num optimized.avg_total_cost),
  metricDelta "Throughput (tx/hr)" baseline.throughput_per_hour optimized.throughput_per_hour,
  metricDelta "Completed Transactions" (.num (baseline.completed_transactions : ℚ))
    (.num (optimized.completed_transactions : ℚ)),
  metricDelta "Failed Transactions" (.num (baseline.failed_transactions : ℚ))
    (.num (optimized.failed_transactions : ℚ)),
  metricDelta "Dropped Transactions" (.num (baseline.dropped_transactions : ℚ))
    (.num (optimized.dropped_transactions : ℚ)) ]

/-- The comparison object `apply_interventions` builds from the
baseline and the re-simulated optimized results. -/
def interventionComparisonOf (ivs : List Intervention)
    (baseline optimized : SimulationResults) (config : SimulationConfig) :
    InterventionComparison :=
let deltas := compute_deltas baseline optimized
let time_saved := pct_change (.num baseline.avg_total_time) (.num optimized.avg_total_time) false
let cost_saved := pct_change (.num baseline.avg_total_cost) (.num optimized.avg_total_cost) false
let throughput_inc := pct_change baseline.throughput_per_hour optimized.throughput_per_hour true
let error_red := pct_change (.num (baseline.failed_transactions : ℚ))
  (.num (optimized.failed_transactions : ℚ)) false
let total_impl_cost : ℚ := (ivs.map (fun i => i.implementation_cost)).sum
let annual_cost_savings : ℚ :=
  (baseline.avg_total_cost - optimized.avg_total_cost) * config.volume_per_hour * 8760
let roi := if 0 < total_impl_cost then some (annual_cost_savings / total_impl_cost) else none
let payback := if 0 < annual_cost_savings
  then some (total_impl_cost / (annual_cost_savings / 12)) else none
{ interventions_applied := ivs
  deltas := deltas
  time_saved_pct := time_saved.roundTo 2
  cost_saved_pct := cost_saved.roundTo 2
  throughput_increase_pct := throughput_inc.roundTo 2
  error_reduction_pct := error_red.roundTo 2
  total_implementation_cost := total_impl_cost
  annual_cost_savings := pyRound 2 annual_cost_savings
  roi_ratio := roi.map (pyRound 2)
  payback_months := payback.map (pyRound 1) }

/-- `apply_interventions`: deep-copy the workflow, apply every
intervention to the copy, re-run the deterministic engine, and compute
the before/after comparison. -/
def apply_interventions (wf : WorkflowGraph) (ivs : List Intervention)
    (baseline : SimulationResults) (cfgOpt : Option SimulationConfig) :
    InterventionComparison :=
let config := cfgOpt.getD baseline.config
interventionComparisonOf ivs baseline
  (run_deterministic (applyAll wf ivs) config) config

/-! ## Leverage ranker (`prosim.intervention.leverage`)

Python's `f"{x:.1f}"` number formatting inside the recommendation
string is abstracted as `toString` of the value rounded to one decimal
digit; no claim depends on the numeric rendering. -/

/-- One entry's update of `rank_leverage`'s `impact_map`: ensure the
`(node_id, parameter)` key is present (initialized to zero impacts),
then overwrite the time- or cost-impact slot with the absolute
relative impact. -/
def impactStep (m : List ((String × String) × (ℚ × ℚ))) (entry : SensitivityEntry) :
    List ((String × String) × (ℚ × ℚ)) :=
let key := (entry.node_id, entry.parameter)
let m1 := if (dlookup m key).isSome then m else dset m key (0, 0)
let cur := dgetD m1 key (0, 0)
if entry.metric_name = "avg_total_time" then dset m1 key (|entry.relative_impact_pct|, cur.2)
else if entry.metric_name = "avg_total_cost" then dset m1 key (cur.1, |entry.relative_impact_pct|)
else m1

/-- The `impact_map` fold of `rank_leverage`: one `(time, cost)` impact
pair per `(node_id, parameter)` key, insertion-ordered. -/
def buildImpactMap (entries : List SensitivityEntry) :
    List ((String × String) × (ℚ × ℚ)) :=
entries.foldl impactStep []

/-- `_build_recommendation`. -/
def build_recommendation (param : String) (impacts : ℚ × ℚ) : String :=
let action :=
  if param = "exec_time_mean" then "Reduce execution time"
  else if param = "cost_per_transaction" then "Reduce per-transaction cost"
  else if param = "error_rate" then "Reduce error rate"
  else if param = "queue_delay_mean" then "Reduce queue delay"
  else if param = "parallelization_factor" then "Add parallel workers"
  else "Optimize " ++ param
if impacts.2 < impacts.1 then
  action ++ " (primary impact: " ++ toString (pyRound 1 impacts.1) ++ "% on total time)"
else
  action ++ " (primary impact: " ++ toString (pyRound 1 impacts.2) ++ "% on total cost)"

/-- The composite leverage score of one impact pair. -/
def leverageScore (impacts : ℚ × ℚ) : ℚ :=
6/10 * impacts.1 + 4/10 * impacts.2

/-- One `impact_map` entry turned into a `LeverageRanking` (raw,
pre-normalization score). -/
def mkRanking (wf : WorkflowGraph) (kv : (String × String) × (ℚ × ℚ)) : LeverageRanking :=
{ node_id := kv.1.1
  node_name := match wf.get_node kv.1.1 with | some n => n.name | none => kv.1.1
  parameter := kv.1.2
  leverage_score := leverageScore kv.2
  time_impact_pct := pyRound 2 kv.2.1
  cost_impact_pct := pyRound 2 kv.2.2
  recommendation := build_recommendation kv.1.2 kv.2 }

/-- The running `max_score` of `rank_leverage` (starting from 0.0). -/
def maxLeverage (im : List ((String × String) × (ℚ × ℚ))) : ℚ :=
im.foldl (fun m kv => max m (leverageScore kv.2)) 0

/-- Normalize one ranking's score by the maximum observed score. -/
def scaleRanking (m : ℚ) (r : LeverageRanking) : LeverageRanking :=
{ r with leverage_score := pyRound 4 (r.leverage_score / m) }

/-- The rankings of `rank_leverage` after the normalization pass
(scores divided by the maximum and rounded when the maximum is
positive, raw otherwise). -/
def normalizedRankings (wf : WorkflowGraph) (sensitivity : SensitivityReport) :
    List LeverageRanking :=
if 0 < maxLeverage (buildImpactMap sensitivity.entries) then
  ((buildImpactMap sensitivity.entries).map (mkRanking wf)).map
    (scaleRanking (maxLeverage (buildImpactMap sensitivity.entries)))
else (buildImpactMap sensitivity.entries).map (mkRanking wf)

/-- `rank_leverage`. -/
def rank_leverage (wf : WorkflowGraph) (sensitivity : SensitivityReport)
    (top_n : ℕ) : List LeverageRanking :=
(List.insertionSort (fun a b : LeverageRanking => b.leverage_score ≤ a.leverage_score)
  (normalizedRankings wf sensitivity)).take top_n

/-! ## Sensitivity analyzer (`prosim.simulation.sensitivity`) and the
deep-copy discipline

Python objects live on a heap and `copy.deepcopy` allocates a fresh,
disjoint object.  To express the frame property (the caller's graph is
never mutated), the two mutating entry points are modelled in
store-passing style: a `Store` of workflow-graph objects, references as
store indices, `deepcopy` as append-allocation, and every parameter
write as `List.set` at the written object's index. -/

/-- The heap of workflow-graph objects. -/
abbrev Store := List WorkflowGraph

/-- `copy.deepcopy` of the graph at index `r`: allocate a fresh object
with the same value; returns the store and the new reference. -/
def deepcopy (st : Store) (r : ℕ) : Store × ℕ :=
(st ++ [st.getD r default], st.length)

/-- `SENSITIVITY_PARAMS`. -/
def SENSITIVITY_PARAMS : List String :=
["exec_time_mean", "cost_per_transaction", "error_rate", "queue_delay_mean",
 "parallelization_factor"]

/-- `getattr(node.params, param_name)` for the tunable parameters (the
discrete `parallelization_factor` read as a float). -/
def getParamQ (p : NodeParams) (name : String) : ℚ :=
if name = "exec_time_mean" then p.exec_time_mean
else if name = "cost_per_transaction" then p.cost_per_transaction
else if name = "error_rate" then p.error_rate
else if name = "queue_delay_mean" then p.queue_delay_mean
else if name = "parallelization_factor" then (p.parallelization_factor : ℚ)
else 0

/-- `setattr(node.params, param_name, v)` for the tunable parameters
(for `parallelization_factor` the analyzer only ever writes the integer
`baseline + 1`, so the floor is exact). -/
def setParamQ (p : NodeParams) (name : String) (v : ℚ) : NodeParams :=
if name = "exec_time_mean" then { p with exec_time_mean := v }
else if name = "cost_per_transaction" then { p with cost_per_transaction := v }
else if name = "error_rate" then { p with error_rate := v }
else if name = "queue_delay_mean" then { p with queue_delay_mean := v }
else if name = "parallelization_factor" then { p with parallelization_factor := (⌊v⌋).toNat }
else p

/-- `_perturb_workflow` in store-passing style: deep-copy the graph at
`r`, write one parameter on the copy, return the copy's reference. -/
def perturb_workflow_st (st : Store) (r : ℕ) (node_id pname : String) (v : ℚ) :
    Store × ℕ :=
let alloc := deepcopy st r
let wf := alloc.1.getD alloc.2 default
let nodes' := setNodeFirst wf.nodes node_id (fun n => { n with params := setParamQ n.params pname v })
(alloc.1.set alloc.2 { wf with nodes := nodes' }, alloc.2)

/-- The perturbed parameter value of one `(node, parameter)` pair:
`parallelization_factor` is bumped by 1 regardless; other parameters
are skipped when their baseline is exactly zero and otherwise scaled by
`1 + pct/100`. -/
def perturbedValue (pct : ℚ) (p : NodeParams) (pname : String) : Option ℚ :=
if pname = "parallelization_factor" then some (getParamQ p pname + 1)
else if getParamQ p pname = 0 then none
else some (getParamQ p pname * (1 + pct / 100))

/-- One `(node, parameter)` iteration of `run_sensitivity_analysis`:
perturb a copy, re-run the deterministic engine, append one entry per
system metric. -/
def sensitivityStep (r : ℕ) (config : SimulationConfig) (pct : ℚ) (bt bc : ℚ)
    (node : Node) (s : Store × List SensitivityEntry) (pname : String) :
    Store × List SensitivityEntry :=
let baseline_value := getParamQ node.params pname
match perturbedValue pct node.params pname with
  | none => s
  | some v =>
      let p := perturb_workflow_st s.1 r node.id pname v
      let pr := run_deterministic (p.1.getD p.2 default) config
      let tEntry : SensitivityEntry :=
        { node_id := node.id, parameter := pname
          baseline_value := baseline_value, perturbed_value := v
          metric_name := "avg_total_time"
          baseline_metric := bt, perturbed_metric := pr.avg_total_time
          absolute_impact := pyRound 6 (pr.avg_total_time - bt)
          relative_impact_pct := pyRound 4 ((pr.avg_total_time - bt) / max |bt| (1/10^10) * 100) }
      let cEntry : SensitivityEntry :=
        { node_id := node.id, parameter := pname
          baseline_value := baseline_value, perturbed_value := v
          metric_name := "avg_total_cost"
          baseline_metric := bc, perturbed_metric := pr.avg_total_cost
          absolute_impact := pyRound 6 (pr.avg_total_cost - bc)
          relative_impact_pct := pyRound 4 ((pr.avg_total_cost - bc) / max |bc| (1/10^10) * 100) }
      (p.1, s.2 ++ [tEntry, cEntry])

/-- `run_sensitivity_analysis` in store-passing style on the graph at
index `r`. -/
def run_sensitivity_analysis_st (st : Store) (r : ℕ)
    (cfgOpt : Option SimulationConfig) (perturbation_pct : ℚ) :
    SensitivityReport × Store :=
let config := cfgOpt.getD { mode := .deterministic }
let wf := st.getD r default
let baseline := run_deterministic wf config
let final := wf.nodes.foldl
  (fun s node =>
    SENSITIVITY_PARAMS.foldl
      (sensitivityStep r config perturbation_pct baseline.avg_total_time
        baseline.avg_total_cost node)
      s)
  (st, [])
(⟨final.2, perturbation_pct⟩, final.1)

/-- `apply_interventions` in store-passing style on the graph at
index `r`: one deep copy, every intervention written to the copy. -/
def apply_interventions_st (st : Store) (r : ℕ) (ivs : List Intervention)
    (baseline : SimulationResults) (cfgOpt : Option SimulationConfig) :
    InterventionComparison × Store :=
let config := cfgOpt.getD baseline.config
let alloc := deepcopy st r
let st2 := ivs.foldl (fun s iv => s.set alloc.2 (apply_single (s.getD alloc.2 default) iv)) alloc.1
(interventionComparisonOf ivs baseline
  (run_deterministic (st2.getD alloc.2 default) config) config, st2)

/-! ## Concrete fixtures used by counterexamples and witnesses -/

/-- A two-node seedable workflow whose start node has positive
execution-time variance, so the entropy stream reaches the output when
the seed is `None`. -/
def wfStartEnd : WorkflowGraph :=
{ name := "se"
  nodes := [
    { id := "s", name := "S", node_type := .start },
    { id := "e", name := "E", node_type := .«end»,
      params := { exec_time_mean := 0, exec_time_variance := 0 } } ]
  edges := [ { source := "s", target := "e" } ] }

/-- A workflow whose only non-start node is a sink that is not an end
node: no transaction can ever complete. -/
def wfSink : WorkflowGraph :=
{ name := "sink"
  nodes := [
    { id := "s", name := "S", node_type := .start,
      params := { exec_time_mean := 0, exec_time_variance := 0 } },
    { id := "t", name := "T", node_type := .api,
      params := { exec_time_mean := 0, exec_time_variance := 0 } } ]
  edges := [ { source := "s", target := "t" } ] }

/-- Two start nodes feeding one ordinary node: its visit probability
sums to 2. -/
def wfTwoStart : WorkflowGraph :=
{ name := "w2"
  nodes := [
    { id := "s1", name := "S1", node_type := .start },
    { id := "s2", name := "S2", node_type := .start },
    { id := "b", name := "B", node_type := .api } ]
  edges := [ { source := "s1", target := "b" }, { source := "s2", target := "b" } ] }

/-- A two-node cycle made of plain (non-loop) edges. -/
def wfCycle : WorkflowGraph :=
{ name := "cyc"
  nodes := [
    { id := "a", name := "A", node_type := .start },
    { id := "b", name := "B", node_type := .api } ]
  edges := [ { source := "a", target := "b" }, { source := "b", target := "a" } ] }

/-- A decision node whose single outgoing edge has probability 0.9995:
inside the 1e-3 tolerance, so normalization leaves it untouched. -/
def wfDecTol : WorkflowGraph :=
{ name := "dec"
  nodes := [
    { id := "s", name := "S", node_type := .start },
    { id := "d", name := "D", node_type := .decision },
    { id := "x", name := "X", node_type := .«end» } ]
  edges := [ { source := "s", target := "d" },
             { source := "d", target := "x", probability := 1999/2000 } ] }

/-- A small linear workflow with non-trivial cost, used to exercise the
intervention engine concretely. -/
def wfLinear : WorkflowGraph :=
{ name := "lin"
  nodes := [
    { id := "s", name := "S", node_type := .start,
      params := { exec_time_mean := 0, exec_time_variance := 0 } },
    { id := "p", name := "P", node_type := .api,
      params := { exec_time_mean := 2, exec_time_variance := 0, cost_per_transaction := 1/20 } },
    { id := "e", name := "E", node_type := .«end»,
      params := { exec_time_mean := 0, exec_time_variance := 0 } } ]
  edges := [ { source := "s", target := "p" }, { source := "p", target := "e" } ] }

/-! ## Generic helper lemmas -/

theorem runTxs_length (nm : String → Option Node) (og : String → List Edge)
    (mh : ℕ) (sid : String) :
    ∀ (n : ℕ) (acc : MCAcc) (rng : Rng), ((runTxs nm og mh sid n acc rng).2.2).length = n := by
  intro n
  induction n with
  | zero => intro acc rng; rfl
  | succ k ih =>
      intro acc rng
      simp only [runTxs, List.length_cons]
      rw [ih]

theorem countP_completed_add (txs : List TxRes) :
    txs.countP (fun t => t.completed) + txs.countP (fun t => ¬ t.completed) = txs.length := by
  induction txs with
  | nil => rfl
  | cons h t ih =>
      simp only [List.countP_cons, List.length_cons]
      rw [← ih]
      cases hc : h.completed <;> simp [hc] <;> omega

/-! ## Claim C10: conservation of transaction counts in `run_monte_carlo` -/

/-- C10: for every workflow graph with at least one start node, every
config and every entropy stream, the Monte Carlo results satisfy
completed + dropped = total: every transaction that does not reach an
end node (including hop-limit halts and dead ends) is counted as
dropped. -/
theorem C10_conservation (wf : WorkflowGraph) (config : SimulationConfig)
    (entropy : ℕ → ℚ) (hs : wf.get_start_nodes ≠ []) :
    (run_monte_carlo wf config entropy).completed_transactions
      + (run_monte_carlo wf config entropy).dropped_transactions
      = (run_monte_carlo wf config entropy).total_transactions := by
  obtain ⟨s0, rest, hrest⟩ := List.exists_cons_of_ne_nil hs
  simp only [run_monte_carlo, mcBody, hrest]
  rw [← Nat.cast_add]
  rw [countP_completed_add]
  rw [runTxs_length]

/-- C10 witness: in a graph whose only path ends at a non-end sink with
two transactions, both are dropped (no drop-off event ever occurs) and
the counts still add up. -/
theorem C10_conservation_witness :
    wfSink.get_start_nodes ≠ [] ∧
      ((run_monte_carlo wfSink { num_transactions := 2, seed := some 0 } (fun _ => 0)).completed_transactions
        + (run_monte_carlo wfSink { num_transactions := 2, seed := some 0 } (fun _ => 0)).dropped_transactions
        = (run_monte_carlo wfSink { num_transactions := 2, seed := some 0 } (fun _ => 0)).total_transactions) :=
  ⟨by decide, C10_conservation wfSink { num_transactions := 2, seed := some 0 } (fun _ => 0) (by decide)⟩

/-! ## Claim C1: Monte Carlo reproducibility

`SimulationConfig.seed` is `Optional[int]`: with `seed = None`,
`numpy.random.default_rng(None)` pulls fresh OS entropy, so two
invocations with the same graph and the same config need not agree.
With any present seed the whole run is a function of (graph, config)
alone. -/

/-- C1 counterexample: with `seed = None` (a legal config value), two
invocations of `run_monte_carlo` on the same graph and the same config
can differ, because the generator draws fresh OS entropy (modelled by
the explicit entropy stream). -/
theorem C1_counterexample :
    run_monte_carlo wfStartEnd { num_transactions := 1, seed := none } (fun _ => 0)
      ≠ run_monte_carlo wfStartEnd { num_transactions := 1, seed := none } (fun _ => 10) := by
  decide

/-- C1 (amended): whenever the config's seed is present (not `None`),
two invocations of `run_monte_carlo` with the same graph and config
produce identical `SimulationResults` — aggregate metrics and all
per-node metrics — independently of the ambient OS entropy. -/
theorem C1_seeded_reproducible (wf : WorkflowGraph) (config : SimulationConfig)
    (h : config.seed ≠ none) (e1 e2 : ℕ → ℚ) :
    run_monte_carlo wf config e1 = run_monte_carlo wf config e2 := by
  obtain ⟨s, hs⟩ := Option.ne_none_iff_exists'.mp h
  unfold run_monte_carlo
  rw [hs]
  rfl

/-- C1 witness: a concrete seeded config, two different entropy
streams, equal results. -/
theorem C1_seeded_reproducible_witness :
    ({ num_transactions := 3, seed := some 5 } : SimulationConfig).seed ≠ none ∧
      run_monte_carlo wfStartEnd { num_transactions := 3, seed := some 5 } (fun _ => 0)
        = run_monte_carlo wfStartEnd { num_transactions := 3, seed := some 5 } (fun n => (n : ℚ)) :=
  ⟨by decide,
    C1_seeded_reproducible wfStartEnd { num_transactions := 3, seed := some 5 } (by decide)
      (fun _ => 0) (fun n => (n : ℚ))⟩

/-! ## Claim C2: visit probabilities in `run_deterministic` -/

theorem dset_mem {κ α : Type} [DecidableEq κ] {d : List (κ × α)} {k : κ} {v : α} :
    ∀ kv ∈ dset d k v, kv = (k, v) ∨ kv ∈ d := by
  induction d with
  | nil =>
      intro kv hkv
      simp only [dset, List.mem_singleton] at hkv
      exact Or.inl hkv
  | cons hd t ih =>
      intro kv hkv
      by_cases hk : hd.1 = k
      · simp only [dset] at hkv
        rw [if_pos hk] at hkv
        rcases List.mem_cons.mp hkv with h1 | h1
        · exact Or.inl h1
        · exact Or.inr (List.mem_cons_of_mem _ h1)
      · simp only [dset] at hkv
        rw [if_neg hk] at hkv
        rcases List.mem_cons.mp hkv with h1 | h1
        · exact Or.inr (h1 ▸ List.mem_cons_self _ _)
        · rcases ih kv h1 with h2 | h2
          · exact Or.inl h2
          · exact Or.inr (List.mem_cons_of_mem _ h2)

theorem dlookup_mem {κ α : Type} [DecidableEq κ] {d : List (κ × α)} {k : κ} {v : α}
    (h : dlookup d k = some v) : (k, v) ∈ d := by
  induction d with
  | nil => simp [dlookup] at h
  | cons hd t ih =>
      by_cases hk : hd.1 = k
      · simp only [dlookup] at h
        rw [if_pos hk] at h
        have hv2 : hd.2 = v := by injection h
        have hhd : hd = (k, v) := by
          cases hd
          simp_all
        rw [hhd]
        exact List.mem_cons_self _ _
      · simp only [dlookup] at h
        rw [if_neg hk] at h
        exact List.mem_cons_of_mem _ (ih h)

/-- The invariant of the visit-probability dict: any value stored under
a key whose (first-matching) node is a start node is exactly 1, and all
values are non-negative. -/
def VPInv (wf : WorkflowGraph) (d : List (String × ℚ)) : Prop :=
∀ kv ∈ d,
  ((∀ node, wf.get_node kv.1 = some node → node.node_type = .start → kv.2 = 1) ∧ 0 ≤ kv.2)

theorem visitStep_inv (wf : WorkflowGraph)
    (hv : ∀ e ∈ wf.edges, 0 ≤ e.probability)
    (d : List (String × ℚ)) (hd : VPInv wf d) (nid : String) :
    VPInv wf (visitStep wf d nid) := by
  unfold visitStep
  cases hn : wf.get_node nid with
  | none => exact hd
  | some node =>
      by_cases hstart : node.node_type = .start
      · simp only [if_pos hstart]
        intro kv hkv
        rcases dset_mem kv hkv with h | h
        · subst h
          refine ⟨fun node' hn' _ => rfl, by norm_num⟩
        · exact hd kv h
      · simp only [if_neg hstart]
        intro kv hkv
        rcases dset_mem kv hkv with h | h
        · subst h
          constructor
          · intro node' hn' hstart'
            rw [hn] at hn'
            cases hn'
            exact absurd hstart' hstart
          · apply List.sum_nonneg
            intro x hx
            rcases List.mem_map.mp hx with ⟨e, he, rfl⟩
            have he' : e ∈ wf.edges := List.mem_of_mem_filter he
            have h1 : 0 ≤ dgetD d e.source 0 := by
              unfold dgetD
              cases hl : dlookup d e.source with
              | none => simp
              | some v =>
                  simpa using (hd (e.source, v) (dlookup_mem hl)).2
            exact mul_nonneg h1 (hv e he')
        · exact hd kv h

theorem visitFold_inv (wf : WorkflowGraph)
    (hv : ∀ e ∈ wf.edges, 0 ≤ e.probability) :
    ∀ (order : List String) (d : List (String × ℚ)), VPInv wf d →
      VPInv wf (order.foldl (visitStep wf) d) := by
  intro order
  induction order with
  | nil => intro d hd; exact hd
  | cons h t ih =>
      intro d hd
      exact ih _ (visitStep_inv wf hv d hd h)

/-- C2 (amended): in `run_deterministic`'s visit-probability pass, every
start node is assigned exactly 1.0 and every assigned visit probability
is non-negative; the upper bound 1 fails in general (see the
counterexample), since non-decision fan-out and multiple start nodes
make incoming probability mass exceed 1. -/
theorem C2_visit_prob (wf : WorkflowGraph)
    (hv : ∀ e ∈ wf.edges, 0 ≤ e.probability) :
    (∀ node_id node q, wf.get_node node_id = some node → node.node_type = .start →
        dlookup (computeVisitProb wf (topological_execution_order wf)) node_id = some q →
        q = 1)
      ∧ (∀ node_id q,
          dlookup (computeVisitProb wf (topological_execution_order wf)) node_id = some q →
          0 ≤ q) := by
  have hinv : VPInv wf (computeVisitProb wf (topological_execution_order wf)) :=
    visitFold_inv wf hv _ [] (by intro kv h; simp at h)
  constructor
  · intro node_id node q hn hs hl
    exact (hinv (node_id, q) (dlookup_mem hl)).1 node hn hs
  · intro node_id q hl
    exact (hinv (node_id, q) (dlookup_mem hl)).2

/-- C2 counterexample: in a valid graph with two start nodes feeding
one api node `b` (all edge probabilities 1, within pydantic's bounds),
`run_deterministic`'s visit probability for the non-start node `b` is
2, outside [0, 1]. -/
theorem C2_counterexample :
    (wfTwoStart.get_node "b").map (fun n => n.node_type) = some .api ∧
      dlookup (computeVisitProb wfTwoStart (topological_execution_order wfTwoStart)) "b"
        = some 2 ∧
      ¬ ((2 : ℚ) ≤ 1) := by
  decide

/-- C2 witness: the amended theorem applied to the two-start graph. -/
theorem C2_visit_prob_witness :
    (∀ e ∈ wfTwoStart.edges, 0 ≤ e.probability) ∧
      ((∀ node_id node q, wfTwoStart.get_node node_id = some node →
          node.node_type = .start →
          dlookup (computeVisitProb wfTwoStart (topological_execution_order wfTwoStart)) node_id
            = some q → q = 1)
        ∧ (∀ node_id q,
            dlookup (computeVisitProb wfTwoStart (topological_execution_order wfTwoStart)) node_id
              = some q → 0 ≤ q)) :=
  ⟨by decide, C2_visit_prob wfTwoStart (by decide)⟩

/-! ## Claim C4: decision-probability normalization -/

theorem sum_map_div (l : List ℚ) (c : ℚ) : (l.map (fun x => x / c)).sum = l.sum / c := by
  induction l with
  | nil => simp
  | cons h t ih => simp [ih, add_div]

/-- How the outgoing edges of a decision node id relate, after
`normalize_decision_probabilities`, to the outgoing edges in the
original graph: the sum ends within 1e-3 of 1; a non-positive original
sum yields the equal distribution 1/n; a sum off by more than 1e-3 is
divided through by the original sum; a sum already within 1e-3 of 1 is
left untouched. -/
def NormOutcome (orig result : WorkflowGraph) (nid : String) : Prop :=
((orig.get_outgoing_edges nid).isEmpty = true →
    result.get_outgoing_edges nid = orig.get_outgoing_edges nid)
∧ ((orig.get_outgoing_edges nid).isEmpty = false →
    (|(((result.get_outgoing_edges nid).map (fun e => e.probability)).sum) - 1| ≤ 1/1000)
    ∧ ((((orig.get_outgoing_edges nid).map (fun e => e.probability)).sum) ≤ 0 →
        result.get_outgoing_edges nid = (orig.get_outgoing_edges nid).map
          (fun e => { e with probability := 1 / ((orig.get_outgoing_edges nid).length : ℚ) }))
    ∧ (0 < (((orig.get_outgoing_edges nid).map (fun e => e.probability)).sum) →
        1/1000 < |(((orig.get_outgoing_edges nid).map (fun e => e.probability)).sum) - 1| →
        result.get_outgoing_edges nid = (orig.get_outgoing_edges nid).map
          (fun e => { e with probability :=
            e.probability / (((orig.get_outgoing_edges nid).map (fun e => e.probability)).sum) }))
    ∧ (0 < (((orig.get_outgoing_edges nid).map (fun e => e.probability)).sum) →
        ¬ 1/1000 < |(((orig.get_outgoing_edges nid).map (fun e => e.probability)).sum) - 1| →
        result.get_outgoing_edges nid = orig.get_outgoing_edges nid))

theorem get_outgoing_map_prob (w : WorkflowGraph) (m nid : String) (f : Edge → ℚ) :
    (mapProbEdges w nid f).get_outgoing_edges m
    = (w.get_outgoing_edges m).map
        (fun e => if e.source = nid then { e with probability := f e } else e) := by
  unfold mapProbEdges WorkflowGraph.get_outgoing_edges
  rw [List.filter_map]
  congr 1
  apply List.filter_congr
  intro e _
  simp only [Function.comp_apply]
  by_cases hs : e.source = nid
  · rw [if_pos hs]
  · rw [if_neg hs]

theorem outgoing_source (w : WorkflowGraph) (m : String) :
    ∀ e ∈ w.get_outgoing_edges m, e.source = m := by
  intro e he
  have := (List.mem_filter.mp he).2
  simpa using this

theorem map_if_list_other (l : List Edge) (nid m : String) (hm : ¬ m = nid)
    (hl : ∀ e ∈ l, e.source = m) (f : Edge → ℚ) :
    l.map (fun e => if e.source = nid then { e with probability := f e } else e) = l := by
  have h : ∀ e ∈ l, (if e.source = nid then { e with probability := f e } else e) = e := by
    intro e he
    rw [if_neg (by rw [hl e he]; exact hm)]
  rw [List.map_congr_left h]
  simp

theorem map_if_list_self (l : List Edge) (nid : String)
    (hl : ∀ e ∈ l, e.source = nid) (f : Edge → ℚ) :
    l.map (fun e => if e.source = nid then { e with probability := f e } else e)
      = l.map (fun e => { e with probability := f e }) := by
  apply List.map_congr_left
  intro e he
  rw [if_pos (hl e he)]

theorem mapProbEdges_outgoing_other (w : WorkflowGraph) (nid m : String) (hm : ¬ m = nid)
    (f : Edge → ℚ) :
    (mapProbEdges w nid f).get_outgoing_edges m = w.get_outgoing_edges m := by
  rw [get_outgoing_map_prob]
  exact map_if_list_other _ nid m hm (outgoing_source w m) f

theorem mapProbEdges_outgoing_self (w : WorkflowGraph) (nid : String) (f : Edge → ℚ) :
    (mapProbEdges w nid f).get_outgoing_edges nid
      = (w.get_outgoing_edges nid).map (fun e => { e with probability := f e }) := by
  rw [get_outgoing_map_prob]
  exact map_if_list_self _ nid (outgoing_source w nid) f

theorem normalizeNode_other (w : WorkflowGraph) (nid m : String) (hm : ¬ m = nid) :
    (normalizeNode w nid).get_outgoing_edges m = w.get_outgoing_edges m := by
  simp only [normalizeNode]
  by_cases h1 : (w.get_outgoing_edges nid).isEmpty
  · rw [if_pos h1]
  · rw [if_neg h1]
    by_cases h2 : ((w.get_outgoing_edges nid).map (fun e => e.probability)).sum ≤ 0
    · rw [if_pos h2, mapProbEdges_outgoing_other w nid m hm]
    · rw [if_neg h2]
      by_cases h3 : 1/1000 < |((w.get_outgoing_edges nid).map (fun e => e.probability)).sum - 1|
      · rw [if_pos h3, mapProbEdges_outgoing_other w nid m hm]
      · rw [if_neg h3]

theorem normalizeNode_nodes (w : WorkflowGraph) (nid : String) :
    (normalizeNode w nid).nodes = w.nodes := by
  simp only [normalizeNode]
  by_cases h1 : (w.get_outgoing_edges nid).isEmpty
  · rw [if_pos h1]
  · rw [if_neg h1]
    by_cases h2 : ((w.get_outgoing_edges nid).map (fun e => e.probability)).sum ≤ 0
    · rw [if_pos h2]; rfl
    · rw [if_neg h2]
      by_cases h3 : 1/1000 < |((w.get_outgoing_edges nid).map (fun e => e.probability)).sum - 1|
      · rw [if_pos h3]; rfl
      · rw [if_neg h3]

theorem prob_of_set (e : Edge) (c : ℚ) : ({ e with probability := c } : Edge).probability = c := rfl

theorem sum_probs_equal (l : List Edge) (c : ℚ) :
    ((l.map (fun e => ({ e with probability := c } : Edge))).map (fun e => e.probability)).sum
      = (l.length : ℚ) * c := by
  induction l with
  | nil => simp
  | cons h t ih =>
      simp only [List.map_cons, List.sum_cons, List.length_cons, ih, prob_of_set]
      push_cast
      ring

theorem sum_probs_div (l : List Edge) (c : ℚ) :
    ((l.map (fun e => ({ e with probability := e.probability / c } : Edge))).map
      (fun e => e.probability)).sum
      = (l.map (fun e => e.probability)).sum / c := by
  induction l with
  | nil => simp
  | cons h t ih =>
      simp only [List.map_cons, List.sum_cons, ih, prob_of_set]
      rw [add_div]

theorem normalizeNode_outcome (orig w : WorkflowGraph) (nid : String)
    (heq : w.get_outgoing_edges nid = orig.get_outgoing_edges nid) :
    NormOutcome orig (normalizeNode w nid) nid := by
  simp only [normalizeNode, heq]
  by_cases h1 : (orig.get_outgoing_edges nid).isEmpty
  · rw [if_pos h1]
    exact ⟨fun _ => heq, fun hne => by rw [h1] at hne; cases hne⟩
  · rw [if_neg h1]
    have hne : orig.get_outgoing_edges nid ≠ [] := by
      intro hnil
      rw [hnil] at h1
      exact h1 rfl
    have hlen : 0 < (orig.get_outgoing_edges nid).length := List.length_pos.mpr hne
    have hlenq : ((orig.get_outgoing_edges nid).length : ℚ) ≠ 0 := by
      have := hlen.ne'
      exact_mod_cast this
    have hempty_false : (orig.get_outgoing_edges nid).isEmpty = false := by
      cases hemp : (orig.get_outgoing_edges nid).isEmpty
      · rfl
      · exact absurd hemp h1
    by_cases h2 : ((orig.get_outgoing_edges nid).map (fun e => e.probability)).sum ≤ 0
    · rw [if_pos h2]
      have hout : (mapProbEdges w nid
            (fun _ => 1 / ((orig.get_outgoing_edges nid).length : ℚ))).get_outgoing_edges nid
          = (orig.get_outgoing_edges nid).map
            (fun e => { e with probability := 1 / ((orig.get_outgoing_edges nid).length : ℚ) }) := by
        rw [mapProbEdges_outgoing_self, heq]
      constructor
      · intro habs
        rw [habs] at hempty_false
        cases hempty_false
      · intro _
        refine ⟨?_, fun _ => hout, fun hpos _ => absurd h2 (not_le.mpr hpos),
          fun hpos _ => absurd h2 (not_le.mpr hpos)⟩
        rw [hout, sum_probs_equal, mul_one_div, div_self hlenq]
        norm_num
    · rw [if_neg h2]
      have hpos : 0 < ((orig.get_outgoing_edges nid).map (fun e => e.probability)).sum :=
        not_le.mp h2
      by_cases h3 : 1/1000 <
          |((orig.get_outgoing_edges nid).map (fun e => e.probability)).sum - 1|
      · rw [if_pos h3]
        have hout : (mapProbEdges w nid
              (fun e => e.probability /
                ((orig.get_outgoing_edges nid).map (fun e => e.probability)).sum)).get_outgoing_edges nid
            = (orig.get_outgoing_edges nid).map
              (fun e => { e with probability := e.probability /
                ((orig.get_outgoing_edges nid).map (fun e => e.probability)).sum }) := by
          rw [mapProbEdges_outgoing_self, heq]
        constructor
        · intro habs
          rw [habs] at hempty_false
          cases hempty_false
        · intro _
          refine ⟨?_, fun hle => absurd hpos (not_lt.mpr hle), fun _ _ => hout,
            fun _ hn3 => absurd h3 hn3⟩
          rw [hout, sum_probs_div, div_self (ne_of_gt hpos)]
          norm_num
      · rw [if_neg h3]
        constructor
        · intro habs
          rw [habs] at hempty_false
          cases hempty_false
        · intro _
          refine ⟨?_, fun hle => absurd hpos (not_lt.mpr hle), fun _ h3p => absurd h3p h3,
            fun _ _ => heq⟩
          rw [heq]
          exact not_lt.mp h3

theorem normOutcome_other (orig w : WorkflowGraph) (nid m : String) (hm : ¬ nid = m)
    (h : NormOutcome orig w nid) : NormOutcome orig (normalizeNode w m) nid := by
  unfold NormOutcome at h ⊢
  rw [normalizeNode_other w m nid hm]
  exact h

theorem normOutcome_again (orig w : WorkflowGraph) (nid : String)
    (h : NormOutcome orig w nid) : NormOutcome orig (normalizeNode w nid) nid := by
  cases hemp : (orig.get_outgoing_edges nid).isEmpty
  · obtain ⟨hsum, _, _, _⟩ := h.2 hemp
    have hwne : w.get_outgoing_edges nid ≠ [] := by
      intro hnil
      rw [hnil] at hsum
      simp at hsum
      linarith [hsum]
    have hwemp : (w.get_outgoing_edges nid).isEmpty = false := by
      cases hw : (w.get_outgoing_edges nid).isEmpty
      · rfl
      · exact absurd (List.isEmpty_iff.mp hw) hwne
    have hbounds := abs_le.mp hsum
    have hid : normalizeNode w nid = w := by
      simp only [normalizeNode]
      rw [hwemp]
      simp only [Bool.false_eq_true, if_false]
      rw [if_neg (by linarith [hbounds.1]), if_neg (by rw [not_lt]; exact hsum)]
    rw [hid]
    exact h
  · have hout : w.get_outgoing_edges nid = orig.get_outgoing_edges nid := h.1 hemp
    have hid : normalizeNode w nid = w := by
      simp only [normalizeNode, hout, hemp]
      rfl
    rw [hid]
    exact h

theorem normFold_outcome (orig : WorkflowGraph) (nid : String) :
    ∀ (L : List Node) (w : WorkflowGraph), NormOutcome orig w nid →
      NormOutcome orig (L.foldl (fun w n => normalizeNode w n.id) w) nid := by
  intro L
  induction L with
  | nil => intro w h; exact h
  | cons m t ih =>
      intro w h
      simp only [List.foldl_cons]
      apply ih
      by_cases hm : nid = m.id
      · rw [← hm]
        exact normOutcome_again orig w nid h
      · exact normOutcome_other orig w nid m.id hm h

theorem normFold_untouched (nid : String) :
    ∀ (L : List Node) (w : WorkflowGraph), (∀ m ∈ L, ¬ m.id = nid) →
      (L.foldl (fun w n => normalizeNode w n.id) w).get_outgoing_edges nid
        = w.get_outgoing_edges nid := by
  intro L
  induction L with
  | nil => intro w _; rfl
  | cons m t ih =>
      intro w hall
      simp only [List.foldl_cons]
      rw [ih _ (fun m' hm' => hall m' (List.mem_cons_of_mem _ hm'))]
      exact normalizeNode_other w m.id nid
        (fun hc => hall m (List.mem_cons_self _ _) (hc.symm))

theorem first_with_id (L : List Node) (n : Node) (hn : n ∈ L) :
    ∃ L1 n' L2, L = L1 ++ n' :: L2 ∧ n'.id = n.id ∧ ∀ m ∈ L1, ¬ m.id = n.id := by
  induction L with
  | nil => cases hn
  | cons h t ih =>
      by_cases hid : h.id = n.id
      · exact ⟨[], h, t, rfl, hid, by simp⟩
      · have hnt : n ∈ t := by
          rcases List.mem_cons.mp hn with h1 | h1
          · exact absurd (congrArg Node.id h1.symm) hid
          · exact h1
        obtain ⟨L1, n', L2, hL, hid', hall⟩ := ih hnt
        refine ⟨h :: L1, n', L2, by rw [hL]; rfl, hid', ?_⟩
        intro m hm
        rcases List.mem_cons.mp hm with h2 | h2
        · rw [h2]; exact hid
        · exact hall m h2

/-- C4 (amended): after `normalize_decision_probabilities`, every
decision node with at least one outgoing edge has outgoing
probabilities summing to within 1e-3 of 1.0; a zero-or-negative
pre-normalization sum yields the equal distribution 1/n; a sum that
differs from 1.0 by more than 1e-3 is rescaled by dividing each
probability by the original sum; a sum already within 1e-3 of 1.0 is
left unchanged (the original claim's unconditional rescaling is exactly
what fails, see the counterexample). -/
theorem C4_normalization (wf : WorkflowGraph) (n : Node)
    (hn : n ∈ wf.get_decision_nodes) :
    NormOutcome wf (normalize_decision_probabilities wf) n.id := by
  obtain ⟨L1, n', L2, hL, hid, hall⟩ := first_with_id _ n hn
  unfold normalize_decision_probabilities
  rw [hL, List.foldl_append]
  simp only [List.foldl_cons]
  apply normFold_outcome
  rw [hid]
  apply normalizeNode_outcome
  exact normFold_untouched n.id L1 wf hall

/-- C4 witness: the amended statement at the tolerance-edge fixture. -/
theorem C4_normalization_witness :
    ({ id := "d", name := "D", node_type := .decision } : Node) ∈ wfDecTol.get_decision_nodes
      ∧ NormOutcome wfDecTol (normalize_decision_probabilities wfDecTol) "d" :=
  ⟨by decide, C4_normalization wfDecTol { id := "d", name := "D", node_type := .decision } (by decide)⟩

/-- C4 counterexample: a decision node whose single outgoing edge has
probability 0.9995 (sum within the 1e-3 tolerance): the code leaves it
at 0.9995, while the claim's "otherwise divide by the original sum"
would make it exactly 1. -/
theorem C4_counterexample :
    "d" ∈ wfDecTol.get_decision_nodes.map (fun n => n.id)
      ∧ (((wfDecTol.get_outgoing_edges "d").map (fun e => e.probability)).sum = 1999/2000)
      ∧ ¬ ((1999 : ℚ)/2000 ≤ 0)
      ∧ ((normalize_decision_probabilities wfDecTol).get_outgoing_edges "d").map
          (fun e => e.probability) = [1999/2000]
      ∧ ¬ ([(1999 : ℚ)/2000]
          = (wfDecTol.get_outgoing_edges "d").map (fun e => e.probability / (1999/2000))) := by
  decide

/-! ## Rounding bounds -/

theorem roundHalfEven_eq_or (q : ℚ) :
    roundHalfEven q = ⌊q⌋ ∨ roundHalfEven q = ⌊q⌋ + 1 := by
  unfold roundHalfEven
  split_ifs <;> simp

theorem roundHalfEven_zero : roundHalfEven 0 = 0 := by
  unfold roundHalfEven
  norm_num

theorem roundHalfEven_nonneg {q : ℚ} (h : 0 ≤ q) : 0 ≤ roundHalfEven q := by
  have hf : (0 : ℤ) ≤ ⌊q⌋ := Int.floor_nonneg.mpr h
  rcases roundHalfEven_eq_or q with h1 | h1 <;> rw [h1] <;> omega

theorem roundHalfEven_le_intCast {q : ℚ} {m : ℤ} (h : q ≤ (m : ℚ)) :
    roundHalfEven q ≤ m := by
  have hf : ⌊q⌋ ≤ m := by
    have := Int.floor_le_floor h
    simpa using this
  rcases roundHalfEven_eq_or q with h1 | h1
  · omega
  · rw [h1]
    by_contra hc
    push_neg at hc
    have hfm : ⌊q⌋ = m := by omega
    have : q - ⌊q⌋ < 1/2 := by
      rw [hfm]
      have : q ≤ (m : ℚ) := h
      linarith
    unfold roundHalfEven at h1
    rw [if_pos this] at h1
    omega

theorem pyRound_zero (n : ℕ) : pyRound n 0 = 0 := by
  unfold pyRound
  rw [zero_mul, roundHalfEven_zero]
  simp

theorem pyRound_nonneg {n : ℕ} {q : ℚ} (h : 0 ≤ q) : 0 ≤ pyRound n q := by
  unfold pyRound
  apply div_nonneg
  · exact_mod_cast roundHalfEven_nonneg (by positivity)
  · positivity

theorem pyRound_le_one {n : ℕ} {q : ℚ} (h : q ≤ 1) : pyRound n q ≤ 1 := by
  unfold pyRound
  rw [div_le_one (by positivity)]
  have h1 : q * 10 ^ n ≤ (((10 : ℤ) ^ n : ℤ) : ℚ) := by
    push_cast
    nlinarith [pow_pos (show (0:ℚ) < 10 by norm_num) n]
  have := roundHalfEven_le_intCast h1
  calc ((roundHalfEven (q * 10 ^ n) : ℤ) : ℚ) ≤ (((10 : ℤ) ^ n : ℤ) : ℚ) := by exact_mod_cast this
    _ = 10 ^ n := by push_cast; ring

theorem roundHalfEven_intCast (m : ℤ) : roundHalfEven (m : ℚ) = m := by
  unfold roundHalfEven
  rw [Int.floor_intCast]
  rw [if_pos (by norm_num)]

theorem pyRound_one (n : ℕ) : pyRound n 1 = 1 := by
  unfold pyRound
  rw [one_mul]
  have h1 : (10 : ℚ) ^ n = (((10 : ℤ) ^ n : ℤ) : ℚ) := by push_cast; ring
  rw [h1, roundHalfEven_intCast]
  rw [div_self]
  · rw [← h1]
    positivity

/-! ## Claim C5: zero-valued interventions -/

/-- All percentage fields, the parallelization increase, and the
implementation cost of an intervention are zero. -/
def IvZero (iv : Intervention) : Prop :=
iv.time_reduction_pct = 0 ∧ iv.cost_reduction_pct = 0 ∧ iv.error_reduction_pct = 0
  ∧ iv.capacity_increase_pct = 0 ∧ iv.parallelization_increase = 0
  ∧ iv.queue_reduction_pct = 0 ∧ iv.implementation_cost = 0

instance (iv : Intervention) : Decidable (IvZero iv) := by
  unfold IvZero
  infer_instance

theorem modParams_zero (iv : Intervention) (hz : IvZero iv) (p : NodeParams) :
    modParams iv p = p := by
  obtain ⟨h1, h2, h3, h4, h5, h6, _⟩ := hz
  unfold modParams
  rw [h1, h2, h3, h4, h6]
  simp [h5]

theorem setNodeFirst_id (ns : List Node) (nid : String) (f : Node → Node)
    (hf : ∀ n, f n = n) : setNodeFirst ns nid f = ns := by
  induction ns with
  | nil => rfl
  | cons h t ih =>
      unfold setNodeFirst
      by_cases hid : h.id = nid
      · rw [if_pos hid, hf]
      · rw [if_neg hid, ih]

theorem apply_single_zero (wf : WorkflowGraph) (iv : Intervention) (hz : IvZero iv) :
    apply_single wf iv = wf := by
  unfold apply_single
  rw [setNodeFirst_id]
  · intro n
    rw [modParams_zero iv hz]

theorem applyAll_zero (wf : WorkflowGraph) (ivs : List Intervention)
    (hz : ∀ iv ∈ ivs, IvZero iv) : applyAll wf ivs = wf := by
  unfold applyAll
  induction ivs with
  | nil => rfl
  | cons h t ih =>
      simp only [List.foldl_cons]
      rw [apply_single_zero wf h (hz h (List.mem_cons_self _ _))]
      exact ih (fun iv hiv => hz iv (List.mem_cons_of_mem _ hiv))

theorem run_det_throughput (wf : WorkflowGraph) (cfg : SimulationConfig) :
    (run_deterministic wf cfg).throughput_per_hour
      = if 0 < (run_deterministic wf cfg).avg_total_time
        then PyF.num (3600 / (run_deterministic wf cfg).avg_total_time) else PyF.inf := rfl

theorem metricDelta_refl_num (name : String) (q : ℚ) :
    (metricDelta name (.num q) (.num q)).absolute_change.absWithin (1/1000) := by
  unfold metricDelta
  simp only [PyF.sub, sub_self, PyF.roundTo, pyRound_zero, PyF.absWithin]
  norm_num

/-- C5 (amended): when the baseline results come from a deterministic
run of the same graph with the same config (the spec's intended
reading, since `apply_interventions` re-runs the deterministic engine
on that config), and that baseline's total time is positive (so
throughput is finite, not `inf - inf = nan`), applying interventions
whose fields are all zero leaves every `MetricDelta`'s absolute change
within 1e-3 of zero.  For an arbitrary baseline `SimulationResults`
the claim is false (see the counterexample). -/
theorem C5_zero_interventions (wf : WorkflowGraph) (cfg : SimulationConfig)
    (ivs : List Intervention) (hz : ∀ iv ∈ ivs, IvZero iv)
    (hpos : 0 < (run_deterministic wf cfg).avg_total_time) :
    ∀ d ∈ (apply_interventions wf ivs (run_deterministic wf cfg) (some cfg)).deltas,
      d.absolute_change.absWithin (1/1000) := by
  intro d hd
  unfold apply_interventions at hd
  rw [applyAll_zero wf ivs hz] at hd
  simp only [Option.getD_some] at hd
  unfold interventionComparisonOf at hd
  simp only at hd
  unfold compute_deltas at hd
  rw [run_det_throughput wf cfg, if_pos hpos] at hd
  simp only [List.mem_cons, List.mem_singleton, List.not_mem_nil, or_false] at hd
  rcases hd with rfl | rfl | rfl | rfl | rfl | rfl <;> exact metricDelta_refl_num _ _

/-- C5 witness: one explicit all-zero intervention on the linear
fixture. -/
theorem C5_zero_interventions_witness :
    (∀ iv ∈ [({ node_id := "s" } : Intervention)], IvZero iv)
      ∧ 0 < (run_deterministic wfLinear { num_transactions := 10 }).avg_total_time
      ∧ ∀ d ∈ (apply_interventions wfLinear [{ node_id := "s" }]
            (run_deterministic wfLinear { num_transactions := 10 })
            (some { num_transactions := 10 })).deltas,
          d.absolute_change.absWithin (1/1000) :=
  ⟨by decide, by decide,
    C5_zero_interventions wfLinear { num_transactions := 10 } [{ node_id := "s" }]
      (by decide) (by decide)⟩

/-- C5 counterexample: with an arbitrary baseline `SimulationResults`
(here: a record whose `avg_total_time` is 100 while the deterministic
rerun gives 2), zero-valued interventions produce a time delta of -98,
far outside 1e-3. -/
theorem C5_counterexample :
    ¬ ∀ d ∈ (apply_interventions wfLinear [{ node_id := "s" }]
          { config := { num_transactions := 10 }, workflow_name := "lin", avg_total_time := 100 }
          (some { num_transactions := 10 })).deltas,
        d.absolute_change.absWithin (1/1000) := by
  decide

/-! ## Claim C7: ROI fields of the intervention comparison -/

/-- What C7 asserts of `apply_interventions`' output, with
`run_deterministic (applyAll wf ivs) config` the optimized rerun and
all equalities modulo the code's output rounding (`round(…, 2)` /
`round(…, 1)`). -/
def C7Spec (wf : WorkflowGraph) (ivs : List Intervention)
    (baseline : SimulationResults) (cfgOpt : Option SimulationConfig) : Prop :=
(apply_interventions wf ivs baseline cfgOpt).annual_cost_savings
    = pyRound 2 ((baseline.avg_total_cost
        - (run_deterministic (applyAll wf ivs) (cfgOpt.getD baseline.config)).avg_total_cost)
      * (cfgOpt.getD baseline.config).volume_per_hour * 8760)
∧ (apply_interventions wf ivs baseline cfgOpt).total_implementation_cost
    = (ivs.map (fun i => i.implementation_cost)).sum
∧ ((apply_interventions wf ivs baseline cfgOpt).roi_ratio = none
    ↔ (ivs.map (fun i => i.implementation_cost)).sum = 0)
∧ (¬ (ivs.map (fun i => i.implementation_cost)).sum = 0 →
    (apply_interventions wf ivs baseline cfgOpt).roi_ratio
      = some (pyRound 2
          (((baseline.avg_total_cost
              - (run_deterministic (applyAll wf ivs) (cfgOpt.getD baseline.config)).avg_total_cost)
            * (cfgOpt.getD baseline.config).volume_per_hour * 8760)
          / (ivs.map (fun i => i.implementation_cost)).sum)))
∧ ((apply_interventions wf ivs baseline cfgOpt).payback_months = none
    ↔ ((baseline.avg_total_cost
        - (run_deterministic (applyAll wf ivs) (cfgOpt.getD baseline.config)).avg_total_cost)
      * (cfgOpt.getD baseline.config).volume_per_hour * 8760) ≤ 0)
∧ (0 < ((baseline.avg_total_cost
      - (run_deterministic (applyAll wf ivs) (cfgOpt.getD baseline.config)).avg_total_cost)
    * (cfgOpt.getD baseline.config).volume_per_hour * 8760) →
    (apply_interventions wf ivs baseline cfgOpt).payback_months
      = some (pyRound 1 ((ivs.map (fun i => i.implementation_cost)).sum
          / (((baseline.avg_total_cost
              - (run_deterministic (applyAll wf ivs) (cfgOpt.getD baseline.config)).avg_total_cost)
            * (cfgOpt.getD baseline.config).volume_per_hour * 8760) / 12))))

/-- C7: `annual_cost_savings` is (baseline cost − optimized cost) ×
volume-per-hour × 8760; `roi_ratio` is annual savings over summed
implementation cost and is `None` exactly when that cost is zero (the
pydantic bound `implementation_cost ≥ 0` is the hypothesis);
`payback_months` is cost over monthly savings and is `None` exactly
when annual savings is non-positive — all modulo output rounding. -/
theorem C7_roi_formulas (wf : WorkflowGraph) (ivs : List Intervention)
    (baseline : SimulationResults) (cfgOpt : Option SimulationConfig)
    (hc : ∀ iv ∈ ivs, 0 ≤ iv.implementation_cost) :
    C7Spec wf ivs baseline cfgOpt := by
  have htot : 0 ≤ (ivs.map (fun i => i.implementation_cost)).sum := by
    apply List.sum_nonneg
    intro x hx
    rcases List.mem_map.mp hx with ⟨iv, hiv, rfl⟩
    exact hc iv hiv
  have hroi : (apply_interventions wf ivs baseline cfgOpt).roi_ratio
      = (if 0 < (ivs.map (fun i => i.implementation_cost)).sum
          then some (((baseline.avg_total_cost
              - (run_deterministic (applyAll wf ivs) (cfgOpt.getD baseline.config)).avg_total_cost)
            * (cfgOpt.getD baseline.config).volume_per_hour * 8760)
            / (ivs.map (fun i => i.implementation_cost)).sum)
          else none).map (pyRound 2) := rfl
  have hpay : (apply_interventions wf ivs baseline cfgOpt).payback_months
      = (if 0 < ((baseline.avg_total_cost
            - (run_deterministic (applyAll wf ivs) (cfgOpt.getD baseline.config)).avg_total_cost)
          * (cfgOpt.getD baseline.config).volume_per_hour * 8760)
          then some ((ivs.map (fun i => i.implementation_cost)).sum
            / (((baseline.avg_total_cost
                - (run_deterministic (applyAll wf ivs) (cfgOpt.getD baseline.config)).avg_total_cost)
              * (cfgOpt.getD baseline.config).volume_per_hour * 8760) / 12))
          else none).map (pyRound 1) := rfl
  refine ⟨rfl, rfl, ?_, ?_, ?_, ?_⟩
  · rw [hroi]
    by_cases h : 0 < (ivs.map (fun i => i.implementation_cost)).sum
    · rw [if_pos h]
      simp only [Option.map_some']
      constructor
      · intro hcontra; cases hcontra
      · intro h0; rw [h0] at h; exact absurd h (lt_irrefl 0)
    · rw [if_neg h]
      simp only [Option.map_none']
      constructor
      · intro _
        exact le_antisymm (not_lt.mp h) htot
      · intro _
        trivial
  · intro hne
    have h : 0 < (ivs.map (fun i => i.implementation_cost)).sum :=
      lt_of_le_of_ne htot (Ne.symm hne)
    rw [hroi, if_pos h]
    rfl
  · rw [hpay]
    by_cases h : 0 < ((baseline.avg_total_cost
        - (run_deterministic (applyAll wf ivs) (cfgOpt.getD baseline.config)).avg_total_cost)
      * (cfgOpt.getD baseline.config).volume_per_hour * 8760)
    · rw [if_pos h]
      simp only [Option.map_some']
      constructor
      · intro hcontra
        cases hcontra
      · intro hle
        exact absurd h (not_lt.mpr hle)
    · rw [if_neg h]
      simp only [Option.map_none']
      constructor
      · intro _
        exact not_lt.mp h
      · intro _
        trivial
  · intro h
    rw [hpay, if_pos h]
    rfl

/-- C7 witness: a 50% cost reduction with implementation cost 100 on
the linear fixture. -/
theorem C7_roi_formulas_witness :
    (∀ iv ∈ [({ node_id := "p", cost_reduction_pct := 50, implementation_cost := 100 }
        : Intervention)], 0 ≤ iv.implementation_cost)
      ∧ C7Spec wfLinear [{ node_id := "p", cost_reduction_pct := 50, implementation_cost := 100 }]
          (run_deterministic wfLinear { num_transactions := 10 })
          (some { num_transactions := 10 }) :=
  ⟨by decide,
    C7_roi_formulas wfLinear [{ node_id := "p", cost_reduction_pct := 50, implementation_cost := 100 }]
      (run_deterministic wfLinear { num_transactions := 10 })
      (some { num_transactions := 10 }) (by decide)⟩

/-! ## Claim C6: the caller's graph object is never mutated -/

theorem perturb_st_preserve (s : Store) (r : ℕ) (hr : r < s.length)
    (nid pname : String) (v : ℚ) :
    (perturb_workflow_st s r nid pname v).1[r]? = s[r]?
      ∧ s.length ≤ (perturb_workflow_st s r nid pname v).1.length := by
  unfold perturb_workflow_st deepcopy
  simp only []
  constructor
  · rw [List.getElem?_set_ne (by omega)]
    exact List.getElem?_append_left hr
  · rw [List.length_set, List.length_append]
    simp

theorem fold_preserve_store {β : Type} (r : ℕ)
    (step : (Store × List SensitivityEntry) → β → (Store × List SensitivityEntry))
    (hstep : ∀ s b, r < s.1.length →
      (step s b).1[r]? = s.1[r]? ∧ r < (step s b).1.length) :
    ∀ (l : List β) (s : Store × List SensitivityEntry), r < s.1.length →
      ((l.foldl step s).1[r]? = s.1[r]? ∧ r < (l.foldl step s).1.length) := by
  intro l
  induction l with
  | nil => intro s hs; exact ⟨rfl, hs⟩
  | cons h t ih =>
      intro s hs
      simp only [List.foldl_cons]
      obtain ⟨h1, h2⟩ := hstep s h hs
      obtain ⟨h3, h4⟩ := ih (step s h) h2
      exact ⟨h3.trans h1, h4⟩

theorem sensitivityStep_preserve (r : ℕ) (cfg : SimulationConfig) (pct bt bc : ℚ)
    (node : Node) (s : Store × List SensitivityEntry) (pname : String)
    (hs : r < s.1.length) :
    (sensitivityStep r cfg pct bt bc node s pname).1[r]? = s.1[r]?
      ∧ r < (sensitivityStep r cfg pct bt bc node s pname).1.length := by
  unfold sensitivityStep
  split
  · exact ⟨rfl, hs⟩
  · obtain ⟨h1, h2⟩ := perturb_st_preserve s.1 r hs node.id pname _
    exact ⟨h1, lt_of_lt_of_le hs h2⟩

theorem foldl_set_getElem? {β : Type} (k r : ℕ) (hkr : ¬ k = r)
    (f : Store → β → WorkflowGraph) :
    ∀ (ivs : List β) (s : Store),
      (ivs.foldl (fun s iv => s.set k (f s iv)) s)[r]? = s[r]? := by
  intro ivs
  induction ivs with
  | nil => intro s; rfl
  | cons h t ih =>
      intro s
      simp only [List.foldl_cons]
      rw [ih]
      exact List.getElem?_set_ne hkr

/-- C6: neither `run_sensitivity_analysis` nor `apply_interventions`
mutates the caller's workflow-graph object: in the store model, the
object at the caller's reference `r` — all its nodes with their
parameter fields and all its edges with their probabilities — is
unchanged by either call; every parameter write lands on a
freshly-allocated deep copy. -/
theorem C6_no_mutation (st : Store) (r : ℕ) (hr : r < st.length)
    (cfgOpt : Option SimulationConfig) (pct : ℚ)
    (ivs : List Intervention) (baseline : SimulationResults)
    (cfgOpt2 : Option SimulationConfig) :
    (run_sensitivity_analysis_st st r cfgOpt pct).2[r]? = st[r]?
      ∧ (apply_interventions_st st r ivs baseline cfgOpt2).2[r]? = st[r]? := by
  constructor
  · unfold run_sensitivity_analysis_st
    simp only []
    exact (fold_preserve_store r _
      (fun s node hs =>
        fold_preserve_store r _
          (fun s' pname hs' => sensitivityStep_preserve r _ pct _ _ node s' pname hs')
          SENSITIVITY_PARAMS s hs)
      (st.getD r default).nodes (st, []) hr).1
  · unfold apply_interventions_st deepcopy
    simp only []
    rw [foldl_set_getElem? st.length r (by omega)]
    exact List.getElem?_append_left hr

/-- C6 witness: a singleton store holding the linear fixture. -/
theorem C6_no_mutation_witness :
    0 < ([wfLinear] : Store).length ∧
      ((run_sensitivity_analysis_st [wfLinear] 0 none 10).2[0]? = ([wfLinear] : Store)[0]?
        ∧ (apply_interventions_st [wfLinear] 0 [{ node_id := "p", time_reduction_pct := 50 }]
            { config := {}, workflow_name := "lin" } none).2[0]? = ([wfLinear] : Store)[0]?) :=
  ⟨by decide,
    C6_no_mutation [wfLinear] 0 (by decide) none 10
      [{ node_id := "p", time_reduction_pct := 50 }]
      { config := {}, workflow_name := "lin" } none⟩

/-! ## Sorting facts shared by C8 and C9 -/

theorem sorted_key_insertionSort {α : Type} (key : α → ℚ) (l : List α) :
    List.Sorted (fun a b => key b ≤ key a)
      (List.insertionSort (fun a b => key b ≤ key a) l) := by
  haveI : IsTotal α (fun a b => key b ≤ key a) := ⟨fun a b => le_total (key b) (key a)⟩
  haveI : IsTrans α (fun a b => key b ≤ key a) := ⟨fun a b c h1 h2 => le_trans h2 h1⟩
  exact List.sorted_insertionSort _ l

theorem mem_insertionSort_iff {α : Type} (r : α → α → Prop) [DecidableRel r]
    {a : α} {l : List α} : a ∈ List.insertionSort r l ↔ a ∈ l :=
  (List.perm_insertionSort r l).mem_iff

theorem sorted_take {α : Type} (r : α → α → Prop) (l : List α) (n : ℕ)
    (h : List.Sorted r l) : List.Sorted r (l.take n) :=
  List.Pairwise.sublist (List.take_sublist n l) h

theorem mem_of_mem_take {α : Type} {l : List α} {n : ℕ} {a : α}
    (h : a ∈ l.take n) : a ∈ l :=
  (List.take_sublist n l).subset h

/-! ## Claim C9: `detect_bottlenecks` -/

/-- Non-negativity of the per-node metric fields that engine-produced
results always satisfy (arbitrary hand-built `SimulationResults` need
not — see the counterexample; `utilization ≥ 0` is a pydantic bound). -/
def C9Hyp (results : SimulationResults) : Prop :=
∀ nm ∈ results.node_metrics,
  0 ≤ nm.total_time_contribution ∧ 0 ≤ nm.total_cost ∧ 0 ≤ nm.queue_time
    ∧ 0 ≤ nm.transactions_errored ∧ 0 ≤ nm.utilization ∧ 0 ≤ nm.transactions_processed

instance (results : SimulationResults) : Decidable (C9Hyp results) := by
  unfold C9Hyp
  infer_instance

/-- A bottleneck score is non-negative when the metric fields feeding
it are. -/
theorem bnScore_nonneg (results : SimulationResults) (nm : NodeMetrics)
    (hc : 0 ≤ nm.total_time_contribution) (ht : 0 ≤ nm.total_cost)
    (hq : 0 ≤ nm.queue_time) (he : 0 ≤ nm.transactions_errored)
    (hu : 0 ≤ nm.utilization) : 0 ≤ bnScore results nm := by
  have d1 : (0:ℚ) < max ((results.node_metrics.map
      (fun x => x.total_time_contribution)).sum) (1/10^10) :=
    lt_of_lt_of_le (by norm_num) (le_max_right _ _)
  have d2 : (0:ℚ) < max ((results.node_metrics.map (fun x => x.total_cost)).sum) (1/10^10) :=
    lt_of_lt_of_le (by norm_num) (le_max_right _ _)
  have d3 : (0:ℚ) < max (listMaxD (results.node_metrics.map (fun x => x.queue_time)) 1)
      (1/10^10) := lt_of_lt_of_le (by norm_num) (le_max_right _ _)
  have d4 : (0:ℚ) < ((max nm.transactions_processed 1 : ℤ) : ℚ) := by
    have h1 : (1:ℤ) ≤ max nm.transactions_processed 1 := le_max_right _ _
    have : (0:ℤ) < max nm.transactions_processed 1 := by omega
    exact_mod_cast this
  have e4 : (0:ℚ) ≤ (nm.transactions_errored : ℚ) := by exact_mod_cast he
  have t1 : (0:ℚ) ≤ bnTimePct results nm := div_nonneg hc d1.le
  have t2 : (0:ℚ) ≤ bnCostPct results nm := div_nonneg ht d2.le
  have t3 : (0:ℚ) ≤ bnQueuePct results nm := div_nonneg hq d3.le
  have t4 : (0:ℚ) ≤ bnErrorRate nm := div_nonneg e4 d4.le
  unfold bnScore
  positivity

/-- C9 (amended): for results in which every node metric's
`total_time_contribution`, `total_cost`, `queue_time`,
`transactions_errored`, `utilization` and `transactions_processed` are
all non-negative, `detect_bottlenecks` returns a list with only
non-negative scores, sorted descending, of length at most top-N,
containing only nodes with at least one processed transaction.  For an
arbitrary `SimulationResults` the claim fails: pydantic puts no lower
bound on the contribution fields or on `transactions_processed`
(negative values are representable, and the code's filter is
`processed != 0`, not `processed ≥ 1`) — see the counterexample. -/
theorem C9_bottlenecks (results : SimulationResults) (top_n : ℕ) (h : C9Hyp results) :
    (∀ b ∈ detect_bottlenecks results top_n,
        0 ≤ b.score ∧ ∃ nm ∈ results.node_metrics,
          nm.node_id = b.node_id ∧ 1 ≤ nm.transactions_processed)
      ∧ List.Sorted (fun a b => b.score ≤ a.score) (detect_bottlenecks results top_n)
      ∧ (detect_bottlenecks results top_n).length ≤ top_n := by
  cases hnm : results.node_metrics with
  | nil =>
      have hd : detect_bottlenecks results top_n = [] := by
        unfold detect_bottlenecks
        rw [hnm]
      rw [hd]
      refine ⟨?_, List.sorted_nil, by simp⟩
      intro b hb
      cases hb
  | cons nm0 nms0 =>
      have hd : detect_bottlenecks results top_n
          = (List.insertionSort (fun a b : BottleneckInfo => b.score ≤ a.score)
              (results.node_metrics.filterMap (bnInfo results))).take top_n := by
        unfold detect_bottlenecks
        rw [hnm]
      rw [hd]
      refine ⟨?_, ?_, ?_⟩
      · intro b hb
        have hb1 := mem_of_mem_take hb
        have hb2 : b ∈ results.node_metrics.filterMap (bnInfo results) :=
          (mem_insertionSort_iff _).mp hb1
        rcases List.mem_filterMap.mp hb2 with ⟨nm, hmem, hfm⟩
        unfold bnInfo at hfm
        by_cases hz : nm.transactions_processed = 0
        · rw [if_pos hz] at hfm
          cases hfm
        · rw [if_neg hz] at hfm
          obtain ⟨hc, ht, hq, he, hu, hp⟩ := h nm hmem
          injection hfm with hfm
          constructor
          · rw [← hfm]
            exact pyRound_nonneg (bnScore_nonneg results nm hc ht hq he hu)
          · exact ⟨nm, hnm ▸ hmem, by rw [← hfm], by omega⟩
      · apply sorted_take
        exact sorted_key_insertionSort (fun b : BottleneckInfo => b.score) _
      · exact List.length_take_le _ _

/-- The deterministic results of the linear fixture, used by witnesses. -/
def rdetW : SimulationResults :=
run_deterministic wfLinear { num_transactions := 10 }

/-- C9 witness: the amended statement at the deterministic results of
the linear fixture. -/
theorem C9_bottlenecks_witness :
    C9Hyp rdetW
      ∧ ((∀ b ∈ detect_bottlenecks rdetW 5,
            0 ≤ b.score ∧ ∃ nm ∈ rdetW.node_metrics,
              nm.node_id = b.node_id ∧ 1 ≤ nm.transactions_processed)
        ∧ List.Sorted (fun a b => b.score ≤ a.score) (detect_bottlenecks rdetW 5)
        ∧ (detect_bottlenecks rdetW 5).length ≤ 5) :=
  ⟨by decide, C9_bottlenecks rdetW 5 (by decide)⟩

/-- C9 counterexample: a `SimulationResults` with one node metric whose
`total_time_contribution` is -1 (representable: pydantic puts no lower
bound on it) makes `detect_bottlenecks` return a negative score. -/
def resultsNegContrib : SimulationResults :=
{ config := {}
  workflow_name := "x"
  node_metrics := [{ node_id := "n", node_name := "N", total_time_contribution := -1,
                     transactions_processed := 1 }] }

theorem C9_counterexample :
    ¬ ∀ b ∈ detect_bottlenecks resultsNegContrib 5, 0 ≤ b.score := by
  decide

/-! ## Claim C8: `rank_leverage` -/

theorem impactStep_nonneg (m : List ((String × String) × (ℚ × ℚ)))
    (hm : ∀ kv ∈ m, 0 ≤ kv.2.1 ∧ 0 ≤ kv.2.2) (entry : SensitivityEntry) :
    ∀ kv ∈ impactStep m entry, 0 ≤ kv.2.1 ∧ 0 ≤ kv.2.2 := by
  unfold impactStep
  have hm1 : ∀ kv ∈ (if (dlookup m (entry.node_id, entry.parameter)).isSome then m
      else dset m (entry.node_id, entry.parameter) (0, 0)), 0 ≤ kv.2.1 ∧ 0 ≤ kv.2.2 := by
    split
    · exact hm
    · intro kv hkv
      rcases dset_mem kv hkv with rfl | h
      · exact ⟨le_refl 0, le_refl 0⟩
      · exact hm kv h
  have hcur : 0 ≤ (dgetD (if (dlookup m (entry.node_id, entry.parameter)).isSome then m
        else dset m (entry.node_id, entry.parameter) (0, 0))
        (entry.node_id, entry.parameter) (0, 0)).1
      ∧ 0 ≤ (dgetD (if (dlookup m (entry.node_id, entry.parameter)).isSome then m
        else dset m (entry.node_id, entry.parameter) (0, 0))
        (entry.node_id, entry.parameter) (0, 0)).2 := by
    unfold dgetD
    cases hl : dlookup (if (dlookup m (entry.node_id, entry.parameter)).isSome then m
        else dset m (entry.node_id, entry.parameter) (0, 0)) (entry.node_id, entry.parameter) with
    | none => exact ⟨le_refl 0, le_refl 0⟩
    | some v =>
        simp only [Option.getD_some]
        exact hm1 _ (dlookup_mem hl)
  split
  · intro kv hkv
    rcases dset_mem kv hkv with rfl | h
    · exact ⟨abs_nonneg _, hcur.2⟩
    · exact hm1 kv h
  · split
    · intro kv hkv
      rcases dset_mem kv hkv with rfl | h
      · exact ⟨hcur.1, abs_nonneg _⟩
      · exact hm1 kv h
    · exact hm1

theorem impactMap_nonneg (entries : List SensitivityEntry) :
    ∀ kv ∈ buildImpactMap entries, 0 ≤ kv.2.1 ∧ 0 ≤ kv.2.2 := by
  unfold buildImpactMap
  suffices h : ∀ (l : List SensitivityEntry) (m), (∀ kv ∈ m, 0 ≤ kv.2.1 ∧ 0 ≤ kv.2.2) →
      ∀ kv ∈ l.foldl impactStep m, 0 ≤ kv.2.1 ∧ 0 ≤ kv.2.2 by
    exact h entries [] (by intro kv hkv; cases hkv)
  intro l
  induction l with
  | nil => intro m hm; exact hm
  | cons e t ih =>
      intro m hm
      simp only [List.foldl_cons]
      exact ih _ (impactStep_nonneg m hm e)

theorem leverageScore_nonneg {kv : (String × String) × (ℚ × ℚ)}
    (h : 0 ≤ kv.2.1 ∧ 0 ≤ kv.2.2) : 0 ≤ leverageScore kv.2 := by
  unfold leverageScore
  have h1 := h.1
  have h2 := h.2
  positivity

theorem init_le_foldl_max {α : Type} (f : α → ℚ) :
    ∀ (l : List α) (init : ℚ), init ≤ l.foldl (fun m x => max m (f x)) init := by
  intro l
  induction l with
  | nil => intro init; exact le_refl _
  | cons h t ih =>
      intro init
      simp only [List.foldl_cons]
      exact le_trans (le_max_left _ _) (ih _)

theorem le_foldl_max {α : Type} (f : α → ℚ) :
    ∀ (l : List α) (init : ℚ) (a : α), a ∈ l →
      f a ≤ l.foldl (fun m x => max m (f x)) init := by
  intro l
  induction l with
  | nil => intro init a ha; cases ha
  | cons h t ih =>
      intro init a ha
      simp only [List.foldl_cons]
      rcases List.mem_cons.mp ha with rfl | ha'
      · exact le_trans (le_max_right _ _) (init_le_foldl_max f t _)
      · exact ih _ a ha'

theorem foldl_max_attained {α : Type} (f : α → ℚ) :
    ∀ (l : List α) (init : ℚ),
      l.foldl (fun m x => max m (f x)) init = init
        ∨ ∃ a ∈ l, l.foldl (fun m x => max m (f x)) init = f a := by
  intro l
  induction l with
  | nil => intro init; exact Or.inl rfl
  | cons h t ih =>
      intro init
      simp only [List.foldl_cons]
      rcases ih (max init (f h)) with h1 | h2
      · rw [h1]
        rcases max_choice init (f h) with h3 | h3
        · exact Or.inl h3
        · exact Or.inr ⟨h, List.mem_cons_self _ _, h3⟩
      · rcases h2 with ⟨a, ha, h2⟩
        exact Or.inr ⟨a, List.mem_cons_of_mem _ ha, h2⟩

theorem maxLeverage_nonneg (im : List ((String × String) × (ℚ × ℚ))) :
    0 ≤ maxLeverage im :=
  init_le_foldl_max _ im 0

theorem normalized_score_bounds (wf : WorkflowGraph) (sens : SensitivityReport) :
    ∀ r ∈ normalizedRankings wf sens, 0 ≤ r.leverage_score ∧ r.leverage_score ≤ 1 := by
  unfold normalizedRankings
  split
  · intro r hr
    rcases List.mem_map.mp hr with ⟨r0, hr0, rfl⟩
    rcases List.mem_map.mp hr0 with ⟨kv, hkv, rfl⟩
    have hs0 : 0 ≤ leverageScore kv.2 := leverageScore_nonneg (impactMap_nonneg _ kv hkv)
    have hsmax : leverageScore kv.2 ≤ maxLeverage (buildImpactMap sens.entries) :=
      le_foldl_max _ _ 0 kv hkv
    have hmker : (mkRanking wf kv).leverage_score = leverageScore kv.2 := rfl
    have hdiv0 : 0 ≤ (mkRanking wf kv).leverage_score
        / maxLeverage (buildImpactMap sens.entries) := by
      rw [hmker]
      apply div_nonneg hs0
      exact maxLeverage_nonneg _
    have hdiv1 : (mkRanking wf kv).leverage_score
        / maxLeverage (buildImpactMap sens.entries) ≤ 1 := by
      rw [hmker]
      rw [div_le_one (by assumption)]
      exact hsmax
    exact ⟨pyRound_nonneg hdiv0, pyRound_le_one hdiv1⟩
  · intro r hr
    rcases List.mem_map.mp hr with ⟨kv, hkv, rfl⟩
    have hs0 : 0 ≤ leverageScore kv.2 := leverageScore_nonneg (impactMap_nonneg _ kv hkv)
    have hsmax : leverageScore kv.2 ≤ maxLeverage (buildImpactMap sens.entries) :=
      le_foldl_max _ _ 0 kv hkv
    have hmax0 : maxLeverage (buildImpactMap sens.entries) ≤ 0 := le_of_not_lt (by assumption)
    have hz : (mkRanking wf kv).leverage_score = leverageScore kv.2 := rfl
    constructor
    · rw [hz]; exact hs0
    · rw [hz]
      calc leverageScore kv.2 ≤ maxLeverage (buildImpactMap sens.entries) := hsmax
        _ ≤ 0 := hmax0
        _ ≤ 1 := by norm_num

/-- C8: every leverage score lies in [0,1]; the returned list is sorted
in descending score order and has length at most top-N; and whenever
top-N is positive and some `(node, parameter)` record has a non-zero
composite score 0.6·time + 0.4·cost, the first entry's score is
exactly 1.0. -/
theorem C8_leverage (wf : WorkflowGraph) (report : SensitivityReport) (top_n : ℕ) :
    (∀ r ∈ rank_leverage wf report top_n, 0 ≤ r.leverage_score ∧ r.leverage_score ≤ 1)
      ∧ List.Sorted (fun a b => b.leverage_score ≤ a.leverage_score)
          (rank_leverage wf report top_n)
      ∧ (rank_leverage wf report top_n).length ≤ top_n
      ∧ (0 < top_n → (∃ kv ∈ buildImpactMap report.entries, ¬ leverageScore kv.2 = 0) →
          ∃ r0 rest, rank_leverage wf report top_n = r0 :: rest ∧ r0.leverage_score = 1) := by
  refine ⟨?_, ?_, ?_, ?_⟩
  · intro r hr
    have hr1 := (mem_insertionSort_iff _).mp (mem_of_mem_take hr)
    exact normalized_score_bounds wf report r hr1
  · exact sorted_take _ _ _
      (sorted_key_insertionSort (fun r : LeverageRanking => r.leverage_score) _)
  · exact List.length_take_le _ _
  · intro htop ⟨kv, hkv, hne⟩
    have hs0 : 0 ≤ leverageScore kv.2 := leverageScore_nonneg (impactMap_nonneg _ kv hkv)
    have hspos : 0 < leverageScore kv.2 := lt_of_le_of_ne hs0 (Ne.symm hne)
    have hmaxpos : 0 < maxLeverage (buildImpactMap report.entries) :=
      lt_of_lt_of_le hspos (le_foldl_max _ _ 0 kv hkv)
    obtain ⟨kv0, hkv0, hattain⟩ : ∃ kv0 ∈ buildImpactMap report.entries,
        maxLeverage (buildImpactMap report.entries) = leverageScore kv0.2 := by
      rcases foldl_max_attained (fun kv => leverageScore kv.2)
        (buildImpactMap report.entries) 0 with h1 | h1
      · exfalso
        have : maxLeverage (buildImpactMap report.entries) = 0 := h1
        rw [this] at hmaxpos
        exact lt_irrefl 0 hmaxpos
      · exact h1
    have hone : (scaleRanking (maxLeverage (buildImpactMap report.entries))
        (mkRanking wf kv0)).leverage_score = 1 := by
      unfold scaleRanking
      have : (mkRanking wf kv0).leverage_score = leverageScore kv0.2 := rfl
      simp only [this]
      rw [← hattain, div_self (ne_of_gt hmaxpos)]
      exact pyRound_one 4
    have hmem1 : scaleRanking (maxLeverage (buildImpactMap report.entries)) (mkRanking wf kv0)
        ∈ normalizedRankings wf report := by
      unfold normalizedRankings
      rw [if_pos hmaxpos]
      exact List.mem_map_of_mem _ (List.mem_map_of_mem _ hkv0)
    have hmem2 : scaleRanking (maxLeverage (buildImpactMap report.entries)) (mkRanking wf kv0)
        ∈ List.insertionSort (fun a b : LeverageRanking => b.leverage_score ≤ a.leverage_score)
          (normalizedRankings wf report) := (mem_insertionSort_iff _).mpr hmem1
    cases hS : List.insertionSort (fun a b : LeverageRanking => b.leverage_score ≤ a.leverage_score)
        (normalizedRankings wf report) with
    | nil => rw [hS] at hmem2; cases hmem2
    | cons hhead ttail =>
        have hsorted := sorted_key_insertionSort (fun r : LeverageRanking => r.leverage_score)
          (normalizedRankings wf report)
        rw [hS] at hsorted hmem2
        have hhead_ge : (1 : ℚ) ≤ hhead.leverage_score := by
          rcases List.mem_cons.mp hmem2 with heq | hmem3
          · rw [← heq, hone]
          · rw [← hone]
            exact List.rel_of_sorted_cons hsorted _ hmem3
        have hhead_le : hhead.leverage_score ≤ 1 := by
          have hh1 : hhead ∈ normalizedRankings wf report := by
            apply (mem_insertionSort_iff
              (fun a b : LeverageRanking => b.leverage_score ≤ a.leverage_score)).mp
            rw [hS]
            exact List.mem_cons_self _ _
          exact (normalized_score_bounds wf report hhead hh1).2
        obtain ⟨m, hm⟩ : ∃ m, top_n = m + 1 := by
          cases top_n with
          | zero => exact absurd htop (lt_irrefl 0)
          | succ k => exact ⟨k, rfl⟩
        refine ⟨hhead, ttail.take m, ?_, le_antisymm hhead_le hhead_ge⟩
        unfold rank_leverage
        rw [hS, hm]
        rfl

/-- A one-entry sensitivity report with a non-zero time impact, used by
the C8 witness. -/
def sampleReport : SensitivityReport :=
{ entries := [{ node_id := "p", parameter := "exec_time_mean", baseline_value := 2,
                perturbed_value := 22/10, metric_name := "avg_total_time",
                baseline_metric := 2, perturbed_metric := 21/10,
                absolute_impact := 1/10, relative_impact_pct := 5 }] }

/-- C8 witness: the theorem applied to a concrete report whose single
record has composite score 3 ≠ 0; the inner hypotheses of the head
clause are discharged concretely. -/
theorem C8_leverage_witness :
    (∀ r ∈ rank_leverage wfLinear sampleReport 10, 0 ≤ r.leverage_score ∧ r.leverage_score ≤ 1)
      ∧ ∃ r0 rest, rank_leverage wfLinear sampleReport 10 = r0 :: rest
          ∧ r0.leverage_score = 1 :=
  ⟨(C8_leverage wfLinear sampleReport 10).1,
    (C8_leverage wfLinear sampleReport 10).2.2.2 (by norm_num)
      ⟨(("p", "exec_time_mean"), (5, 0)), by decide, by decide⟩⟩

/-! ## Claim C3: `topological_execution_order` -/

theorem foldl_pres {α β : Type} (P : α → Prop) (f : α → β → α)
    (hf : ∀ a b, P a → P (f a b)) :
    ∀ (l : List β) (init : α), P init → P (l.foldl f init) := by
  intro l
  induction l with
  | nil => intro init h; exact h
  | cons b t ih => intro init h; exact ih _ (hf init b h)

theorem insertUnique_nodup {α : Type} [DecidableEq α] {l : List α} (x : α)
    (h : l.Nodup) : (insertUnique l x).Nodup := by
  unfold insertUnique
  split
  · exact h
  · rename_i hx
    apply List.Nodup.append h (List.nodup_singleton x)
    intro a ha hb
    rw [List.mem_singleton] at hb
    subst hb
    exact hx ha

theorem insertUnique_mem_mono {α : Type} [DecidableEq α] {l : List α} {x : α} (y : α)
    (h : x ∈ l) : x ∈ insertUnique l y := by
  unfold insertUnique
  split
  · exact h
  · exact List.mem_append_left _ h

theorem insertUnique_mem_self {α : Type} [DecidableEq α] (l : List α) (x : α) :
    x ∈ insertUnique l x := by
  unfold insertUnique
  split
  · assumption
  · exact List.mem_append_right _ (List.mem_singleton_self x)

theorem insertUnique_mem_src {α : Type} [DecidableEq α] {l : List α} {x y : α}
    (h : x ∈ insertUnique l y) : x ∈ l ∨ x = y := by
  unfold insertUnique at h
  split at h
  · exact Or.inl h
  · rcases List.mem_append.mp h with h1 | h1
    · exact Or.inl h1
    · exact Or.inr (List.mem_singleton.mp h1)

theorem mem_foldl_of_mem {α β : Type} (f : List α → β → List α) (T : β → α)
    (hins : ∀ l b, T b ∈ f l b)
    (hmono : ∀ (l : List α) (b : β) (x : α), x ∈ l → x ∈ f l b) :
    ∀ (l : List β) (init : List α) (b : β), b ∈ l → T b ∈ l.foldl f init := by
  intro l
  induction l with
  | nil => intro init b hb; cases hb
  | cons c t ih =>
      intro init b hb
      rcases List.mem_cons.mp hb with rfl | hb'
      · simp only [List.foldl_cons]
        exact foldl_pres (fun m => T b ∈ m) f (fun a b2 h => hmono a b2 _ h) t _ (hins init b)
      · exact ih _ b hb'

theorem foldl_mem_src {α β : Type} (f : List α → β → List α) (Q : β → α → Prop)
    (hsrc : ∀ (l : List α) (b : β) (x : α), x ∈ f l b → x ∈ l ∨ Q b x) :
    ∀ (l : List β) (init : List α) (x : α),
      x ∈ l.foldl f init → x ∈ init ∨ ∃ b ∈ l, Q b x := by
  intro l
  induction l with
  | nil => intro init x hx; exact Or.inl hx
  | cons c t ih =>
      intro init x hx
      rcases ih _ x hx with h1 | h1
      · rcases hsrc init c x h1 with h2 | h2
        · exact Or.inl h2
        · exact Or.inr ⟨c, List.mem_cons_self _ _, h2⟩
      · rcases h1 with ⟨b, hb, hq⟩
        exact Or.inr ⟨b, List.mem_cons_of_mem _ hb, hq⟩

theorem nxNodes_nodup (wf : WorkflowGraph) : (nxNodes wf).Nodup := by
  unfold nxNodes
  exact foldl_pres List.Nodup _
    (fun l e h => insertUnique_nodup _ (insertUnique_nodup _ h)) wf.edges _
    (foldl_pres List.Nodup _ (fun l n h => insertUnique_nodup _ h) wf.nodes [] List.nodup_nil)

theorem nxEdges_nodup (wf : WorkflowGraph) : (nxEdges wf).Nodup :=
  foldl_pres List.Nodup _ (fun l e h => insertUnique_nodup _ h) wf.edges [] List.nodup_nil

theorem edge_mem_nxEdges (wf : WorkflowGraph) (e : Edge) (he : e ∈ wf.edges) :
    (e.source, e.target) ∈ nxEdges wf :=
  mem_foldl_of_mem _ (fun e => (e.source, e.target))
    (fun l b => insertUnique_mem_self l _)
    (fun l b x hx => insertUnique_mem_mono _ hx) wf.edges [] e he

theorem edge_source_mem_nxNodes (wf : WorkflowGraph) (e : Edge) (he : e ∈ wf.edges) :
    e.source ∈ nxNodes wf :=
  mem_foldl_of_mem _ (fun e : Edge => e.source)
    (fun l b => insertUnique_mem_mono _ (insertUnique_mem_self l _))
    (fun l b x hx => insertUnique_mem_mono _ (insertUnique_mem_mono _ hx)) wf.edges _ e he

theorem edge_target_mem_nxNodes (wf : WorkflowGraph) (e : Edge) (he : e ∈ wf.edges) :
    e.target ∈ nxNodes wf :=
  mem_foldl_of_mem _ (fun e : Edge => e.target)
    (fun l b => insertUnique_mem_self _ _)
    (fun l b x hx => insertUnique_mem_mono _ (insertUnique_mem_mono _ hx)) wf.edges _ e he

theorem nxEdges_src (wf : WorkflowGraph) (p : String × String) (hp : p ∈ nxEdges wf) :
    ∃ e ∈ wf.edges, p = (e.source, e.target) := by
  rcases foldl_mem_src _ (fun b x => x = (b.source, b.target))
      (fun l b x hx => insertUnique_mem_src hx) wf.edges [] p hp with h | h
  · cases h
  · exact h

theorem posOf_cons (x a : String) (l : List String) :
    posOf (x :: l) a = if x = a then 0 else posOf l a + 1 := rfl

theorem posOf_cons_self (x : String) (l : List String) : posOf (x :: l) x = 0 := by
  rw [posOf_cons, if_pos rfl]

theorem posOf_cons_ne (x a : String) (l : List String) (h : ¬ x = a) :
    posOf (x :: l) a = posOf l a + 1 := by
  rw [posOf_cons, if_neg h]

theorem posOf_append_right (l1 l2 : List String) (a : String) (h : ¬ a ∈ l1) :
    posOf (l1 ++ l2) a = l1.length + posOf l2 a := by
  induction l1 with
  | nil => simp only [List.nil_append, List.length_nil, Nat.zero_add]
  | cons x t ih =>
      simp only [List.cons_append, List.length_cons]
      rw [posOf_cons_ne x a _ (fun hxa => h (by rw [← hxa]; exact List.mem_cons_self x t))]
      rw [ih (fun ha => h (List.mem_cons_of_mem _ ha))]
      omega

theorem indegCount_pos (l : List (String × String)) (e : String × String) (he : e ∈ l) :
    0 < indegCount l e.2 := by
  unfold indegCount
  have hm : e ∈ l.filter (fun x => x.2 = e.2) := List.mem_filter.mpr ⟨he, by simp⟩
  exact List.length_pos.mpr (List.ne_nil_of_mem hm)

theorem indegCount_filter_le (l : List (String × String)) (p : String × String → Bool)
    (y : String) : indegCount (l.filter p) y ≤ indegCount l y := by
  unfold indegCount
  exact List.Sublist.length_le (List.Sublist.filter _ (List.filter_sublist l))

theorem foldl_cons_rev {α : Type} :
    ∀ (l s : List α), l.foldl (fun s c => c :: s) s = l.reverse ++ s := by
  intro l
  induction l with
  | nil => intro s; simp
  | cons c t ih =>
      intro s
      simp only [List.foldl_cons, List.reverse_cons]
      rw [ih (c :: s), List.append_assoc]
      rfl

theorem rev_split (acc : List String) (u w : String)
    (h : ∃ l1 l2, acc = l1 ++ u :: l2 ∧ w ∈ l1) :
    ∃ l1 l2, acc.reverse = l1 ++ u :: l2 ∧ w ∈ l2 := by
  obtain ⟨l1, l2, rfl, hw⟩ := h
  refine ⟨l2.reverse, l1.reverse, ?_, List.mem_reverse.mpr hw⟩
  rw [List.reverse_append, List.reverse_cons, List.append_assoc]
  rfl

theorem kahnAux_step (fuel : ℕ) (rem : List (String × String)) (v : String)
    (stk acc : List String) :
    kahnAux (fuel + 1) rem (v :: stk) acc =
      kahnAux fuel (rem.filter (fun e => ¬ e.1 = v))
        ((((rem.filter (fun e => e.1 = v)).map (fun e => e.2)).filter
            (fun c => indegCount (rem.filter (fun e => ¬ e.1 = v)) c = 0)).foldl
          (fun s c => c :: s) stk)
        (v :: acc) := rfl

theorem kahn_step_inv (nodes : List String) (E0 : List (String × String))
    (rem : List (String × String)) (v : String) (tl acc : List String)
    (rem' : List (String × String)) (nz : List String)
    (hrem'd : rem' = rem.filter (fun e => ¬ e.1 = v))
    (hnzd : nz = ((rem.filter (fun e => e.1 = v)).map (fun e => e.2)).filter
        (fun c => indegCount rem' c = 0))
    (hrem : rem.Nodup) (hacc : acc.Nodup) (hstk : (v :: tl).Nodup)
    (hsa : ∀ x ∈ v :: tl, ¬ x ∈ acc)
    (hsn : ∀ x ∈ v :: tl, x ∈ nodes)
    (han : ∀ x ∈ acc, x ∈ nodes)
    (htn : ∀ e ∈ rem, e.2 ∈ nodes)
    (hsi : ∀ x ∈ v :: tl, indegCount rem x = 0)
    (hr1 : ∀ e ∈ rem, ¬ e.1 ∈ acc)
    (hr2 : ∀ e ∈ rem, ¬ e.2 ∈ acc ∧ ¬ e.2 ∈ v :: tl)
    (hvi : ∀ e ∈ E0, e ∈ rem ∨ e.1 ∈ acc)
    (hord : ∀ e ∈ E0, e.2 ∈ acc → ∃ l1 l2, acc = l1 ++ e.1 :: l2 ∧ e.2 ∈ l1) :
    rem'.Nodup ∧ (v :: acc).Nodup ∧ (nz.reverse ++ tl).Nodup
      ∧ (∀ x ∈ nz.reverse ++ tl, ¬ x ∈ v :: acc)
      ∧ (∀ x ∈ nz.reverse ++ tl, x ∈ nodes)
      ∧ (∀ x ∈ v :: acc, x ∈ nodes)
      ∧ (∀ e ∈ rem', e.2 ∈ nodes)
      ∧ (∀ x ∈ nz.reverse ++ tl, indegCount rem' x = 0)
      ∧ (∀ e ∈ rem', ¬ e.1 ∈ v :: acc)
      ∧ (∀ e ∈ rem', ¬ e.2 ∈ v :: acc ∧ ¬ e.2 ∈ nz.reverse ++ tl)
      ∧ (∀ e ∈ E0, e ∈ rem' ∨ e.1 ∈ v :: acc)
      ∧ (∀ e ∈ E0, e.2 ∈ v :: acc → ∃ l1 l2, v :: acc = l1 ++ e.1 :: l2 ∧ e.2 ∈ l1) := by
  have hvnacc : ¬ v ∈ acc := hsa v (List.mem_cons_self _ _)
  have hvntl : ¬ v ∈ tl := (List.nodup_cons.mp hstk).1
  have htlnd : tl.Nodup := (List.nodup_cons.mp hstk).2
  have hvz : indegCount rem v = 0 := hsi v (List.mem_cons_self _ _)
  have htgt_ne_v : ∀ e ∈ rem, ¬ e.2 = v := by
    intro e he hev
    have hpos := indegCount_pos rem e he
    rw [hev] at hpos
    omega
  have hrem'_mem : ∀ e, e ∈ rem' → e ∈ rem ∧ ¬ e.1 = v := by
    intro e he
    rw [hrem'd] at he
    have h1 := List.mem_filter.mp he
    exact ⟨h1.1, by simpa using h1.2⟩
  have hrem'_mem' : ∀ e, e ∈ rem → ¬ e.1 = v → e ∈ rem' := by
    intro e he h1
    rw [hrem'd]
    exact List.mem_filter.mpr ⟨he, by simpa using h1⟩
  have hrem'_indeg : ∀ y, indegCount rem' y ≤ indegCount rem y := by
    intro y
    rw [hrem'd]
    exact indegCount_filter_le rem _ y
  have hnz_src : ∀ c ∈ nz, (∃ e ∈ rem, e.1 = v ∧ e.2 = c) ∧ indegCount rem' c = 0 := by
    intro c hc
    rw [hnzd] at hc
    have h1 := List.mem_filter.mp hc
    obtain ⟨e, he, hec⟩ := List.mem_map.mp h1.1
    have he2 := List.mem_filter.mp he
    exact ⟨⟨e, he2.1, by simpa using he2.2, hec⟩, by simpa using h1.2⟩
  have hnz_nodup : nz.Nodup := by
    rw [hnzd]
    apply List.Nodup.filter
    apply List.Nodup.map_on
    · intro x hx y hy hxy
      have hx1 : x.1 = v := by simpa using (List.mem_filter.mp hx).2
      have hy1 : y.1 = v := by simpa using (List.mem_filter.mp hy).2
      exact Prod.ext (hx1.trans hy1.symm) hxy
    · exact List.Nodup.filter _ hrem
  have hnz_tgt : ∀ c ∈ nz, c ∈ nodes ∧ ¬ c ∈ acc ∧ ¬ c ∈ v :: tl := by
    intro c hc
    obtain ⟨⟨e, he, hev, hec⟩, _⟩ := hnz_src c hc
    subst hec
    exact ⟨htn e he, (hr2 e he).1, (hr2 e he).2⟩
  refine ⟨?_, ?_, ?_, ?_, ?_, ?_, ?_, ?_, ?_, ?_, ?_, ?_⟩
  · rw [hrem'd]; exact List.Nodup.filter _ hrem
  · exact List.nodup_cons.mpr ⟨hvnacc, hacc⟩
  · apply List.Nodup.append (List.nodup_reverse.mpr hnz_nodup) htlnd
    intro a ha hb
    exact (hnz_tgt a (List.mem_reverse.mp ha)).2.2 (List.mem_cons_of_mem _ hb)
  · intro x hx hmem
    rcases List.mem_append.mp hx with h1 | h1
    · have h2 := hnz_tgt x (List.mem_reverse.mp h1)
      rcases List.mem_cons.mp hmem with rfl | h3
      · exact h2.2.2 (List.mem_cons_self _ _)
      · exact h2.2.1 h3
    · rcases List.mem_cons.mp hmem with rfl | h3
      · exact hvntl h1
      · exact hsa x (List.mem_cons_of_mem _ h1) h3
  · intro x hx
    rcases List.mem_append.mp hx with h1 | h1
    · exact (hnz_tgt x (List.mem_reverse.mp h1)).1
    · exact hsn x (List.mem_cons_of_mem _ h1)
  · intro x hx
    rcases List.mem_cons.mp hx with rfl | h1
    · exact hsn x (List.mem_cons_self _ _)
    · exact han x h1
  · intro e he
    exact htn e (hrem'_mem e he).1
  · intro x hx
    rcases List.mem_append.mp hx with h1 | h1
    · exact (hnz_src x (List.mem_reverse.mp h1)).2
    · have h2 := hsi x (List.mem_cons_of_mem _ h1)
      have h3 := hrem'_indeg x
      omega
  · intro e he hmem
    obtain ⟨he1, he2⟩ := hrem'_mem e he
    rcases List.mem_cons.mp hmem with h3 | h3
    · exact he2 h3
    · exact hr1 e he1 h3
  · intro e he
    obtain ⟨he1, _⟩ := hrem'_mem e he
    constructor
    · intro hmem
      rcases List.mem_cons.mp hmem with h3 | h3
      · exact htgt_ne_v e he1 h3
      · exact (hr2 e he1).1 h3
    · intro hmem
      rcases List.mem_append.mp hmem with h1 | h1
      · have h2 := (hnz_src e.2 (List.mem_reverse.mp h1)).2
        have h3 := indegCount_pos rem' e he
        omega
      · exact (hr2 e he1).2 (List.mem_cons_of_mem _ h1)
  · intro e he
    rcases hvi e he with h1 | h1
    · by_cases h2 : e.1 = v
      · exact Or.inr (by rw [h2]; exact List.mem_cons_self _ _)
      · exact Or.inl (hrem'_mem' e h1 h2)
    · exact Or.inr (List.mem_cons_of_mem _ h1)
  · intro e he h2
    rcases List.mem_cons.mp h2 with hv2 | h2'
    · have henr : ¬ e ∈ rem := fun hr => htgt_ne_v e hr hv2
      have h1a : e.1 ∈ acc := (hvi e he).resolve_left henr
      obtain ⟨l1, l2, hsplit⟩ := List.append_of_mem h1a
      refine ⟨v :: l1, l2, by rw [hsplit]; rfl, ?_⟩
      rw [hv2]
      exact List.mem_cons_self _ _
    · obtain ⟨l1, l2, hsplit, hmem⟩ := hord e he h2'
      exact ⟨v :: l1, l2, by rw [hsplit]; rfl, List.mem_cons_of_mem _ hmem⟩

theorem kahnAux_spec (nodes : List String) (E0 : List (String × String)) :
    ∀ (fuel : ℕ) (rem : List (String × String)) (stk acc : List String),
      rem.Nodup → acc.Nodup → stk.Nodup →
      (∀ x ∈ stk, ¬ x ∈ acc) →
      (∀ x ∈ stk, x ∈ nodes) →
      (∀ x ∈ acc, x ∈ nodes) →
      (∀ e ∈ rem, e.2 ∈ nodes) →
      (∀ x ∈ stk, indegCount rem x = 0) →
      (∀ e ∈ rem, ¬ e.1 ∈ acc) →
      (∀ e ∈ rem, ¬ e.2 ∈ acc ∧ ¬ e.2 ∈ stk) →
      (∀ e ∈ E0, e ∈ rem ∨ e.1 ∈ acc) →
      (∀ e ∈ E0, e.2 ∈ acc → ∃ l1 l2, acc = l1 ++ e.1 :: l2 ∧ e.2 ∈ l1) →
      (kahnAux fuel rem stk acc).Nodup
        ∧ (∀ x ∈ kahnAux fuel rem stk acc, x ∈ nodes)
        ∧ ∀ e ∈ E0, e.2 ∈ kahnAux fuel rem stk acc →
            ∃ l1 l2, kahnAux fuel rem stk acc = l1 ++ e.1 :: l2 ∧ e.2 ∈ l2 := by
  intro fuel
  induction fuel with
  | zero =>
      intro rem stk acc hrem hacc hstk hsa hsn han htn hsi hr1 hr2 hvi hord
      have hout : kahnAux 0 rem stk acc = acc.reverse := rfl
      rw [hout]
      refine ⟨List.nodup_reverse.mpr hacc, ?_, ?_⟩
      · intro x hx
        exact han x (List.mem_reverse.mp hx)
      · intro e he h2
        exact rev_split acc e.1 e.2 (hord e he (List.mem_reverse.mp h2))
  | succ fuel ih =>
      intro rem stk acc hrem hacc hstk hsa hsn han htn hsi hr1 hr2 hvi hord
      cases stk with
      | nil =>
          have hout : kahnAux (fuel + 1) rem [] acc = acc.reverse := rfl
          rw [hout]
          refine ⟨List.nodup_reverse.mpr hacc, ?_, ?_⟩
          · intro x hx
            exact han x (List.mem_reverse.mp hx)
          · intro e he h2
            exact rev_split acc e.1 e.2 (hord e he (List.mem_reverse.mp h2))
      | cons v tl =>
          rw [kahnAux_step, foldl_cons_rev]
          obtain ⟨i1, i2, i3, i4, i5, i6, i7, i8, i9, i10, i11, i12⟩ :=
            kahn_step_inv nodes E0 rem v tl acc _ _ rfl rfl
              hrem hacc hstk hsa hsn han htn hsi hr1 hr2 hvi hord
          exact ih _ _ _ i1 i2 i3 i4 i5 i6 i7 i8 i9 i10 i11 i12

theorem kahn_spec (g : DG) (hn : g.nodes.Nodup) (he : g.edges.Nodup)
    (htgt : ∀ e ∈ g.edges, e.2 ∈ g.nodes) :
    (kahn g).Nodup ∧ (∀ x ∈ kahn g, x ∈ g.nodes)
      ∧ ∀ e ∈ g.edges, e.2 ∈ kahn g →
          ∃ l1 l2, kahn g = l1 ++ e.1 :: l2 ∧ e.2 ∈ l2 := by
  unfold kahn
  refine kahnAux_spec g.nodes g.edges g.nodes.length g.edges _ [] he List.nodup_nil
    ?_ ?_ ?_ ?_ htgt ?_ ?_ ?_ ?_ ?_
  · exact List.nodup_reverse.mpr (List.Nodup.filter _ hn)
  · intro x hx hm
    cases hm
  · intro x hx
    exact (List.mem_filter.mp (List.mem_reverse.mp hx)).1
  · intro x hx
    cases hx
  · intro x hx
    have := (List.mem_filter.mp (List.mem_reverse.mp hx)).2
    simpa using this
  · intro e he' hm
    cases hm
  · intro e he'
    constructor
    · intro hm
      cases hm
    · intro hm
      have hz : indegCount g.edges e.2 = 0 := by
        have := (List.mem_filter.mp (List.mem_reverse.mp hm)).2
        simpa using this
      have hpos := indegCount_pos g.edges e he'
      omega
  · intro e he'
    exact Or.inl he'
  · intro e he' h2
    cases h2

theorem kahn_complete (g : DG) (hn : g.nodes.Nodup) (he : g.edges.Nodup)
    (htgt : ∀ e ∈ g.edges, e.2 ∈ g.nodes) (hd : isDag g) :
    ∀ x ∈ g.nodes, x ∈ kahn g := by
  obtain ⟨hnd, hsub, _⟩ := kahn_spec g hn he htgt
  have hsp : List.Subperm (kahn g) g.nodes := List.Nodup.subperm hnd (fun _ ha => hsub _ ha)
  have hperm : List.Perm (kahn g) g.nodes := hsp.perm_of_length_le (le_of_eq hd.symm)
  intro x hx
  exact hperm.mem_iff.mpr hx

theorem kahn_sound (g : DG) (hn : g.nodes.Nodup) (he : g.edges.Nodup)
    (hend : ∀ e ∈ g.edges, e.1 ∈ g.nodes ∧ e.2 ∈ g.nodes) (hd : isDag g) :
    ∀ e ∈ g.edges, posOf (kahn g) e.1 < posOf (kahn g) e.2 := by
  obtain ⟨hnd, hsub, hordout⟩ := kahn_spec g hn he (fun e he' => (hend e he').2)
  intro e he'
  have h2 : e.2 ∈ kahn g :=
    kahn_complete g hn he (fun e he' => (hend e he').2) hd e.2 (hend e he').2
  obtain ⟨l1, l2, hout, hm2⟩ := hordout e he' h2
  rw [hout] at hnd ⊢
  have hnd' := List.nodup_append.mp hnd
  have h1nl1 : ¬ e.1 ∈ l1 := fun hmem => hnd'.2.2 hmem (List.mem_cons_self _ _)
  have h2nl1 : ¬ e.2 ∈ l1 := fun hmem => hnd'.2.2 hmem (List.mem_cons_of_mem _ hm2)
  have h21 : ¬ e.1 = e.2 := by
    intro heq
    have hm1 : e.1 ∈ l2 := by rw [heq]; exact hm2
    exact (List.nodup_cons.mp hnd'.2.1).1 hm1
  rw [posOf_append_right l1 _ e.1 h1nl1, posOf_append_right l1 _ e.2 h2nl1,
    posOf_cons_self, posOf_cons_ne _ _ _ h21]
  omega

theorem removeLoops_edges_mem {wf : WorkflowGraph} {p : String × String} :
    p ∈ (removeLoops wf).edges ↔ p ∈ nxEdges wf ∧ ¬ p ∈ loopPairs wf := by
  show p ∈ (nxEdges wf).filter (fun p => ¬ p ∈ loopPairs wf) ↔ _
  constructor
  · intro hm
    have h1 := List.mem_filter.mp hm
    exact ⟨h1.1, by simpa using h1.2⟩
  · intro hm
    exact List.mem_filter.mpr ⟨hm.1, by simpa using hm.2⟩

theorem breakCycles_dag : ∀ (fuel : ℕ) (g : DG), isDag g → breakCycles fuel g = g := by
  intro fuel g h
  cases fuel with
  | zero => rfl
  | succ n =>
      unfold breakCycles
      rw [if_pos h]

theorem topo_eq_kahn (wf : WorkflowGraph) (h : isDag (removeLoops wf)) :
    topological_execution_order wf = kahn (removeLoops wf) := by
  unfold topological_execution_order acyclicGraph
  rw [breakCycles_dag _ _ h]

/-- C3 (amended): whenever removing the loop-typed edge pairs leaves an
acyclic graph, `topological_execution_order` places the source of every
edge before its target, for each edge that is not loop-typed and whose
`(source, target)` pair is not also carried by a loop-typed edge.  The
original claim fails on workflows with non-loop cycles, whose breaking
drops an edge of the cycle. -/
theorem C3_topo_order (wf : WorkflowGraph) (h : isDag (removeLoops wf)) :
    ∀ e ∈ wf.edges, ¬ e.edge_type = .loop → ¬ (e.source, e.target) ∈ loopPairs wf →
      posOf (topological_execution_order wf) e.source
        < posOf (topological_execution_order wf) e.target := by
  intro e he htype hpair
  rw [topo_eq_kahn wf h]
  have hmem : (e.source, e.target) ∈ (removeLoops wf).edges :=
    removeLoops_edges_mem.mpr ⟨edge_mem_nxEdges wf e he, hpair⟩
  have hnodes : (removeLoops wf).nodes = nxNodes wf := rfl
  have hn : (removeLoops wf).nodes.Nodup := by
    rw [hnodes]
    exact nxNodes_nodup wf
  have hednd : (removeLoops wf).edges.Nodup := by
    show ((nxEdges wf).filter (fun p => ¬ p ∈ loopPairs wf)).Nodup
    exact List.Nodup.filter _ (nxEdges_nodup wf)
  have hend : ∀ p ∈ (removeLoops wf).edges,
      p.1 ∈ (removeLoops wf).nodes ∧ p.2 ∈ (removeLoops wf).nodes := by
    intro p hp
    obtain ⟨e0, he0, rfl⟩ := nxEdges_src wf p (removeLoops_edges_mem.mp hp).1
    rw [hnodes]
    exact ⟨edge_source_mem_nxNodes wf e0 he0, edge_target_mem_nxNodes wf e0 he0⟩
  exact kahn_sound (removeLoops wf) hn hednd hend h (e.source, e.target) hmem

/-- C3 counterexample: in a two-node workflow whose sequential edges
form the cycle a → b → a, the cycle-breaking step drops the edge
(b, a), and the resulting order [a, b] places that non-loop edge's
source after its target. -/
theorem C3_counterexample :
    ¬ ∀ e ∈ wfCycle.edges, ¬ e.edge_type = .loop →
        posOf (topological_execution_order wfCycle) e.source
          < posOf (topological_execution_order wfCycle) e.target := by
  decide

/-- C3 witness: the amended theorem applied to the acyclic linear
workflow at its edge s → p, every hypothesis discharged concretely. -/
theorem C3_topo_order_witness :
    isDag (removeLoops wfLinear)
      ∧ posOf (topological_execution_order wfLinear) "s"
          < posOf (topological_execution_order wfLinear) "p" :=
  ⟨by decide, C3_topo_order wfLinear (by decide) { source := "s", target := "p" }
    (by decide) (by decide) (by decide)⟩

end Prosim
